import Mathlib

/-!
Verification of the PLY reader/writer (`src/plyData.ts`).

The TypeScript source is shallowly embedded: JS strings become `List Char`,
byte buffers become `List Nat` (one entry per byte), JS numbers become a sum
of NaN, signed infinity and an exact rational, and every method of `PlyData`
becomes a state-passing function.  Internal exceptions that the source
catches (`Buffer` range errors, `undefined.split`) are modelled with
`Option`/`Bool` results that carry the partially mutated state, exactly as
the caught exception leaves the object.
-/

set_option maxRecDepth 40000

namespace PlyVerify

/-- JS strings, modelled as lists of characters. -/
abbrev JSStr := List Char

/-! The string literals of the source, as character lists. -/

def plyKw : JSStr := ("ply").toList
def formatKw : JSStr := ("format").toList
def versionOneKw : JSStr := ("1.0").toList
def commentKw : JSStr := ("comment").toList
def objInfoKw : JSStr := ("obj_info").toList
def elementKw : JSStr := ("element").toList
def propertyListKw : JSStr := ("property list").toList
def propertyKw : JSStr := ("property").toList
def endHeaderKw : JSStr := ("end_header").toList
def asciiKw : JSStr := ("ascii").toList
def binaryLittleEndianKw : JSStr := ("binary_little_endian").toList
def binaryBigEndianKw : JSStr := ("binary_big_endian").toList
def xKw : JSStr := ("x").toList
def yKw : JSStr := ("y").toList
def zKw : JSStr := ("z").toList
def redKw : JSStr := ("red").toList
def greenKw : JSStr := ("green").toList
def blueKw : JSStr := ("blue").toList
def vertexKw : JSStr := ("vertex").toList
def faceKw : JSStr := ("face").toList
def vertexIndicesKw : JSStr := ("vertex_indices").toList
def vertexIndexKw : JSStr := ("vertex_index").toList
def infinityKw : JSStr := ("Infinity").toList
def nanKw : JSStr := ("NaN").toList
def undefinedKw : JSStr := ("undefined").toList
def plyLineKw : JSStr := ("ply\n").toList
def formatAsciiKw : JSStr := ("format ascii ").toList
def nlKw : JSStr := ("\n").toList
def spaceKw : JSStr := (" ").toList
def commentSpKw : JSStr := ("comment ").toList
def objInfoSpKw : JSStr := ("obj_info ").toList
def elementSpKw : JSStr := ("element ").toList
def propertySpKw : JSStr := ("property ").toList
def propertyListUcharSpKw : JSStr := ("property list uchar ").toList
def endHeaderNlKw : JSStr := ("end_header\n").toList

/-- A JS `number` as the decoders observe it: NaN, a signed infinity, or an
exact rational value. -/
inductive JSNum where
  | nan : JSNum
  | inf : Bool → JSNum
  | val : ℚ → JSNum
deriving DecidableEq, Repr

/-- Characters treated as whitespace by `String.prototype.trim`,
`parseInt` and `parseFloat` (the subset that can occur in our byte inputs). -/
def isJsSpace (c : Char) : Bool :=
  c == ' ' || c == '\t' || c == '\n' || c == '\r' || c == '\x0b' || c == '\x0c'

/-- `String.prototype.trim`. -/
def jsTrim (l : JSStr) : JSStr :=
  ((l.dropWhile isJsSpace).reverse.dropWhile isJsSpace).reverse

/-- `String.prototype.split` against a single-character class: every
matching character separates, empty pieces are kept. -/
def splitOnChars (sep : Char → Bool) : JSStr → List JSStr
  | [] => [[]]
  | c :: rest =>
    let r := splitOnChars sep rest
    if sep c then [] :: r
    else
      match r with
      | [] => [[c]]
      | t :: ts => (c :: t) :: ts

/-- `line.split(DELIMITER)` with `DELIMITER = /[ \t]/gm`. -/
def splitTokens (l : JSStr) : List JSStr :=
  splitOnChars (fun c => c == ' ' || c == '\t') l

/-- `text.split("\n")`. -/
def splitLines (l : JSStr) : List JSStr :=
  splitOnChars (fun c => c == '\n') l

/-- `String.prototype.startsWith`. -/
def listStartsWith (l p : JSStr) : Bool := p.isPrefixOf l

/-- Decimal digit value of a character, if any. -/
def digitVal (c : Char) : Option Nat :=
  if '0' ≤ c ∧ c ≤ '9' then some (c.toNat - ('0').toNat) else none

/-- Hexadecimal digit value of a character, if any. -/
def hexDigitVal (c : Char) : Option Nat :=
  if '0' ≤ c ∧ c ≤ '9' then some (c.toNat - ('0').toNat)
  else if 'a' ≤ c ∧ c ≤ 'f' then some (c.toNat - ('a').toNat + 10)
  else if 'A' ≤ c ∧ c ≤ 'F' then some (c.toNat - ('A').toNat + 10)
  else none

/-- Take the longest prefix of digits (values) and return them with the rest. -/
def takeDigits : JSStr → (List Nat × JSStr)
  | [] => ([], [])
  | c :: rest =>
    match digitVal c with
    | some d =>
      let (ds, r) := takeDigits rest
      (d :: ds, r)
    | none => ([], c :: rest)

/-- Longest prefix of hexadecimal digits. -/
def takeHexDigits : JSStr → (List Nat × JSStr)
  | [] => ([], [])
  | c :: rest =>
    match hexDigitVal c with
    | some d =>
      let (ds, r) := takeHexDigits rest
      (d :: ds, r)
    | none => ([], c :: rest)

/-- Digit list (most significant first) to a natural number in base `b`. -/
def digitsToNat (b : Nat) (ds : List Nat) : Nat :=
  ds.foldl (fun a d => a * b + d) 0

/-- Optional leading sign; returns (isNegative, rest). -/
def readSign : JSStr → Bool × JSStr
  | '-' :: r => (true, r)
  | '+' :: r => (false, r)
  | l => (false, l)

/-- JS `parseInt(s)` (radix unspecified, so a `0x` prefix selects base 16):
`none` is NaN, otherwise the integer value of the longest digit prefix. -/
def parseIntJS (l : JSStr) : Option Int :=
  let l := l.dropWhile isJsSpace
  let (neg, l) := readSign l
  let mag : Option Nat :=
    match l with
    | '0' :: 'x' :: r | '0' :: 'X' :: r =>
      match takeHexDigits r with
      | ([], _) => none
      | (ds, _) => some (digitsToNat 16 ds)
    | _ =>
      match takeDigits l with
      | ([], _) => none
      | (ds, _) => some (digitsToNat 10 ds)
  mag.map (fun m => if neg then -(m : Int) else (m : Int))

/-- The numeric part of JS `parseFloat`: longest prefix of the form
`digits[.digits][eE[+-]digits]`; `none` when no digit is present.  The
value `(ip.fp) * 10^expo` is built with `mkRat` (kernel-reducible) instead
of rational field operations. -/
def parseFloatCore (l : JSStr) : Option ℚ :=
  let (ip, r1) := takeDigits l
  let (fp, r2) :=
    match r1 with
    | '.' :: r => takeDigits r
    | _ => ([], r1)
  if ip = [] ∧ fp = [] then none
  else
    let m : Nat := digitsToNat 10 ip * 10 ^ fp.length + digitsToNat 10 fp
    let expo : Int :=
      match r2 with
      | 'e' :: r | 'E' :: r =>
        let (sgn, r') := readSign r
        match takeDigits r' with
        | ([], _) => 0
        | (ds, _) =>
          if sgn then -((digitsToNat 10 ds : Nat) : Int) else ((digitsToNat 10 ds : Nat) : Int)
      | _ => 0
    some (if 0 ≤ expo then
            mkRat ((m * 10 ^ expo.toNat : Nat) : Int) (10 ^ fp.length)
          else
            mkRat (m : Int) (10 ^ fp.length * 10 ^ (-expo).toNat))

/-- JS `parseFloat(s)`. -/
def parseFloatJS (l : JSStr) : JSNum :=
  let l := l.dropWhile isJsSpace
  let (neg, l) := readSign l
  if listStartsWith l infinityKw then .inf (!neg)
  else
    match parseFloatCore l with
    | none => .nan
    | some q => .val (if neg then -q else q)

/-- The eight PLY numeric types (source enum `PropertyType`). -/
inductive PropertyType where
  | char | uchar | short | ushort | int | uint | float | double
deriving DecidableEq, Repr

/-- Source `Property.getNumByte`. -/
def getNumByte : PropertyType → Nat
  | .char | .uchar => 1
  | .short | .ushort => 2
  | .int | .uint | .float => 4
  | .double => 8

/-- Source `Property.parseValue(token, type)`.  A missing token is JS
`undefined`, which both `parseInt` and `parseFloat` turn into NaN. -/
def parseValue (token : Option JSStr) (t : PropertyType) : JSNum :=
  match token with
  | none => .nan
  | some tok =>
    match t with
    | .char | .uchar | .short | .ushort | .int | .uint =>
      match parseIntJS tok with
      | none => .nan
      | some i => .val (i : ℚ)
    | .float | .double => parseFloatJS tok

/-- The `width` bytes of `buffer` starting at `offset`; `none` models the
`ERR_OUT_OF_RANGE` exception Node's `Buffer.read*` methods throw. -/
def bytesAt (buffer : List Nat) (offset width : Nat) : Option (List Nat) :=
  if offset + width ≤ buffer.length then some ((buffer.drop offset).take width) else none

/-- Assemble bytes little-endian (first byte least significant). -/
def leValue (bs : List Nat) : Nat := bs.foldr (fun b acc => b + 256 * acc) 0

/-- Assemble bytes big-endian (first byte most significant). -/
def beValue (bs : List Nat) : Nat := bs.foldl (fun acc b => acc * 256 + b) 0

/-- Reinterpret a `w`-byte unsigned value as two's complement. -/
def toSigned (w : Nat) (v : Nat) : Int :=
  if v < 2 ^ (8 * w - 1) then (v : Int) else (v : Int) - 2 ^ (8 * w)

/-- Exact IEEE-754 decoding of a bit pattern with the given exponent and
mantissa widths (8/23 for float, 11/52 for double).  The value `m * 2^e`
is built with `mkRat` so that it is kernel-reducible. -/
def decodeIEEE (bits expBits mantBits : Nat) : JSNum :=
  let mant := bits % 2 ^ mantBits
  let expo := bits / 2 ^ mantBits % 2 ^ expBits
  let sign := bits / 2 ^ (mantBits + expBits) % 2 = 1
  if expo = 2 ^ expBits - 1 then
    if mant = 0 then .inf (!sign) else .nan
  else
    let bias : Int := 2 ^ (expBits - 1) - 1
    let m : Nat := if expo = 0 then mant else 2 ^ mantBits + mant
    let e : Int := (if expo = 0 then 1 else (expo : Int)) - bias - (mantBits : Int)
    let q : ℚ :=
      if 0 ≤ e then mkRat ((m * 2 ^ e.toNat : Nat) : Int) 1
      else mkRat (m : Int) (2 ^ (-e).toNat)
    .val (if sign then -q else q)

/-- Source `Property.readValue(buffer, type, offset, littleEndian)`. -/
def readValue (buffer : List Nat) (t : PropertyType) (offset : Nat) (littleEndian : Bool) :
    Option JSNum :=
  let w := getNumByte t
  (bytesAt buffer offset w).map fun bs =>
    let u := if littleEndian then leValue bs else beValue bs
    match t with
    | .char | .short | .int => .val ((toSigned w u : Int) : ℚ)
    | .uchar | .ushort | .uint => .val (u : ℚ)
    | .float => decodeIEEE u 8 23
    | .double => decodeIEEE u 11 52

/-- Source class `TypedProperty` (a scalar property). -/
structure TypedProperty where
  name : JSStr
  type : PropertyType
  values : List JSNum
deriving DecidableEq, Repr

/-- Source class `TypedListProperty`.  `flattenedIndexStart` entries are JS
numbers that the ASCII path can set to NaN (`none`). -/
structure TypedListProperty where
  name : JSStr
  type : PropertyType
  listCountBytes : Int
  flattenedData : List JSNum
  flattenedIndexStart : List (Option Int)
deriving DecidableEq, Repr

/-- The abstract class `Property`, as a tagged sum of its two subclasses. -/
inductive Property where
  | typed : TypedProperty → Property
  | typedList : TypedListProperty → Property
deriving DecidableEq, Repr

def Property.name : Property → JSStr
  | .typed p => p.name
  | .typedList p => p.name

/-- Iterations of `for (let i = 0; i < count; i++)` when `count` is an
integer-or-NaN JS number: NaN and non-positive counts give zero. -/
def jsLoopCount : Option Int → Nat
  | none => 0
  | some c => c.toNat

/-- `parseInt` applied to a possibly-`undefined` token. -/
def parseIntTok (token : Option JSStr) : Option Int :=
  token.bind parseIntJS

/-- Source `TypedProperty.parseNext`. -/
def TypedProperty.parseNext (p : TypedProperty) (tokens : List JSStr) (iTok : Nat) :
    TypedProperty × Nat :=
  ({ p with values := p.values ++ [parseValue tokens[iTok]? p.type] }, iTok + 1)

/-- Source `TypedProperty.readNext` (little-endian); `none` offset records
the propagated buffer range exception, with no value pushed. -/
def TypedProperty.readNext (p : TypedProperty) (buffer : List Nat) (offset : Nat) :
    TypedProperty × Option Nat :=
  match readValue buffer p.type offset true with
  | none => (p, none)
  | some v => ({ p with values := p.values ++ [v] }, some (offset + getNumByte p.type))

/-- Source `TypedProperty.readNextBigEndian`. -/
def TypedProperty.readNextBigEndian (p : TypedProperty) (buffer : List Nat) (offset : Nat) :
    TypedProperty × Option Nat :=
  match readValue buffer p.type offset false with
  | none => (p, none)
  | some v => ({ p with values := p.values ++ [v] }, some (offset + getNumByte p.type))

/-- Source `TypedListProperty.parseNext`: reads a count token, then that
many value tokens (missing tokens parse to NaN); `afterSize` is computed
before the loop as `flattenedData.length + count`, so a NaN or negative
count lands unvalidated in `flattenedIndexStart`. -/
def TypedListProperty.parseNext (p : TypedListProperty) (tokens : List JSStr) (iTok : Nat) :
    TypedListProperty × Nat :=
  let count := parseIntTok tokens[iTok]?
  let iTok := iTok + 1
  let afterSize : Option Int := count.map (fun c => (p.flattenedData.length : Int) + c)
  let iters := jsLoopCount count
  ({ p with
      flattenedData :=
        p.flattenedData ++ (List.range iters).map (fun k => parseValue tokens[iTok + k]? p.type),
      flattenedIndexStart := p.flattenedIndexStart ++ [afterSize] },
   iTok + iters)

/-- The value-reading loop shared by the two binary list readers; a failed
read aborts with the values pushed so far. -/
def readListLoop (ty : PropertyType) (little : Bool) (buffer : List Nat) :
    Nat → Nat → List JSNum → (List JSNum × Option Nat)
  | 0, offset, acc => (acc, some offset)
  | Nat.succ k, offset, acc =>
    match readValue buffer ty offset little with
    | none => (acc, none)
    | some v => readListLoop ty little buffer k (offset + getNumByte ty) (acc ++ [v])

/-- The unsigned count field read of the binary list readers
(`readUint8` / `readUint16LE|BE` / `readUint32LE|BE`); any other
`listCountBytes` throws. -/
def readListCount (p : TypedListProperty) (buffer : List Nat) (offset : Nat) (little : Bool) :
    Option Nat :=
  if p.listCountBytes = 1 then (bytesAt buffer offset 1).map (fun bs => leValue bs)
  else if p.listCountBytes = 2 then
    (bytesAt buffer offset 2).map (fun bs => if little then leValue bs else beValue bs)
  else if p.listCountBytes = 4 then
    (bytesAt buffer offset 4).map (fun bs => if little then leValue bs else beValue bs)
  else none

/-- Source `TypedListProperty.readNext` / `readNextBigEndian`, over the
endianness flag.  A mid-loop range error leaves the partial data pushed and
`flattenedIndexStart` untouched, as the thrown exception does. -/
def TypedListProperty.readNextEndian (p : TypedListProperty) (buffer : List Nat)
    (offset : Nat) (little : Bool) : TypedListProperty × Option Nat :=
  match readListCount p buffer offset little with
  | none => (p, none)
  | some count =>
    let offset := offset + p.listCountBytes.toNat
    let afterSize : Int := (p.flattenedData.length : Int) + (count : Int)
    match readListLoop p.type little buffer count offset [] with
    | (vals, none) => ({ p with flattenedData := p.flattenedData ++ vals }, none)
    | (vals, some off') =>
      ({ p with
          flattenedData := p.flattenedData ++ vals,
          flattenedIndexStart := p.flattenedIndexStart ++ [some afterSize] },
       some off')

def TypedListProperty.readNext (p : TypedListProperty) (buffer : List Nat) (offset : Nat) :
    TypedListProperty × Option Nat :=
  p.readNextEndian buffer offset true

def TypedListProperty.readNextBigEndian (p : TypedListProperty) (buffer : List Nat)
    (offset : Nat) : TypedListProperty × Option Nat :=
  p.readNextEndian buffer offset false

/-- Virtual dispatch of `parseNext`. -/
def Property.parseNext : Property → List JSStr → Nat → Property × Nat
  | .typed p, tokens, iTok =>
    let (p', i) := p.parseNext tokens iTok
    (.typed p', i)
  | .typedList p, tokens, iTok =>
    let (p', i) := p.parseNext tokens iTok
    (.typedList p', i)

/-- Virtual dispatch of `readNext`. -/
def Property.readNext : Property → List Nat → Nat → Property × Option Nat
  | .typed p, buffer, offset =>
    let (p', r) := p.readNext buffer offset
    (.typed p', r)
  | .typedList p, buffer, offset =>
    let (p', r) := p.readNext buffer offset
    (.typedList p', r)

/-- Virtual dispatch of `readNextBigEndian`. -/
def Property.readNextBigEndian : Property → List Nat → Nat → Property × Option Nat
  | .typed p, buffer, offset =>
    let (p', r) := p.readNextBigEndian buffer offset
    (.typed p', r)
  | .typedList p, buffer, offset =>
    let (p', r) := p.readNextBigEndian buffer offset
    (.typedList p', r)

/-- The `listCountTypeStr` switch of `createPropertyWithType`. -/
def listCountBytesFor (s : JSStr) : Option Int :=
  if s = ("uchar").toList ∨ s = ("uint8").toList ∨ s = ("char").toList ∨ s = ("int8").toList then
    some 1
  else if s = ("ushort").toList ∨ s = ("uint16").toList ∨ s = ("short").toList ∨
      s = ("int16").toList then
    some 2
  else if s = ("uint").toList ∨ s = ("uint32").toList ∨ s = ("int").toList ∨
      s = ("int32").toList then
    some 4
  else none

/-- The `typeStr` switch of `createPropertyWithType`. -/
def resolveType (s : JSStr) : Option PropertyType :=
  if s = ("uchar").toList ∨ s = ("uint8").toList then some .uchar
  else if s = ("ushort").toList ∨ s = ("uint16").toList then some .ushort
  else if s = ("uint").toList ∨ s = ("uint32").toList then some .uint
  else if s = ("char").toList ∨ s = ("int8").toList then some .char
  else if s = ("short").toList ∨ s = ("int16").toList then some .short
  else if s = ("int").toList ∨ s = ("int32").toList then some .int
  else if s = ("float").toList ∨ s = ("float32").toList then some .float
  else if s = ("double").toList ∨ s = ("float64").toList then some .double
  else none

/-- Source `createPropertyWithType`; `none` is the `undefined` it returns
for an unrecognized count type or data type.  For scalars the source leaves
`listCountBytes` at `-1`. -/
def createPropertyWithType (name typeStr : JSStr) (isList : Bool) (listCountTypeStr : JSStr) :
    Option Property :=
  let lcb? : Option Int := if isList then listCountBytesFor listCountTypeStr else some (-1)
  match lcb? with
  | none => none
  | some lcb =>
    (resolveType typeStr).map fun τ =>
      if isList then
        .typedList
          { name := name, type := τ, listCountBytes := lcb,
            flattenedData := [], flattenedIndexStart := [some 0] }
      else
        .typed { name := name, type := τ, values := [] }

/-- Source type `Element`; `count` is the raw `parseInt` result, so it can
be NaN (`none`) or negative. -/
structure Element where
  name : JSStr
  count : Option Int
  properties : List Property
deriving DecidableEq, Repr

/-- Source type `Header`. -/
structure Header where
  type : JSStr
  version : JSStr
  comments : List JSStr
  objInfoComments : List JSStr
deriving DecidableEq, Repr

/-- Source `Faces` result record of `getFaces`. -/
structure Faces where
  indices : List JSNum
  strides : List (Option Int)
deriving DecidableEq, Repr

/-- The state of a `PlyData` instance. -/
structure PlyData where
  header : Header
  elements : List Element
deriving DecidableEq, Repr

/-- A freshly constructed `PlyData`. -/
def emptyPlyData : PlyData :=
  { header := { type := [], version := [], comments := [], objInfoComments := [] },
    elements := [] }

def pushComment (st : PlyData) (c : JSStr) : PlyData :=
  { st with header := { st.header with comments := st.header.comments ++ [c] } }

def pushObjInfo (st : PlyData) (c : JSStr) : PlyData :=
  { st with header := { st.header with objInfoComments := st.header.objInfoComments ++ [c] } }

def pushElement (st : PlyData) (e : Element) : PlyData :=
  { st with elements := st.elements ++ [e] }

/-- `this.elements[this.elements.length - 1].properties.push(property)`. -/
def pushToLastElement : List Element → Property → List Element
  | [], _ => []
  | [e], p => [{ e with properties := e.properties ++ [p] }]
  | e :: rest, p => e :: pushToLastElement rest p

def pushPropertyToLast (st : PlyData) (p : Property) : PlyData :=
  { st with elements := pushToLastElement st.elements p }

/-- The dispatch loop of `_parseHeader` over the lines after the format
line: blank lines are skipped, prefixes are tested in source order, and
`end_header` breaks with success.  Failure keeps the mutations made so far. -/
def parseHeaderLines (st : PlyData) : List JSStr → Bool × PlyData
  | [] => (true, st)
  | l :: rest =>
    if l = [] then parseHeaderLines st rest
    else if listStartsWith l commentKw then
      parseHeaderLines (pushComment st (l.drop 8)) rest
    else if listStartsWith l objInfoKw then
      parseHeaderLines (pushObjInfo st (l.drop 9)) rest
    else if listStartsWith l elementKw then
      match splitTokens l with
      | [_, t1, t2] =>
        parseHeaderLines
          (pushElement st { name := t1, count := parseIntJS t2, properties := [] }) rest
      | _ => (false, st)
    else if listStartsWith l propertyListKw then
      match splitTokens l with
      | [_, _, t2, t3, t4] =>
        if st.elements.isEmpty then (false, st)
        else
          match createPropertyWithType t4 t3 true t2 with
          | none => (false, st)
          | some p => parseHeaderLines (pushPropertyToLast st p) rest
      | _ => (false, st)
    else if listStartsWith l propertyKw then
      match splitTokens l with
      | [_, t1, t2] =>
        if st.elements.isEmpty then (false, st)
        else
          match createPropertyWithType t2 t1 false [] with
          | none => (false, st)
          | some p => parseHeaderLines (pushPropertyToLast st p) rest
      | _ => (false, st)
    else if listStartsWith l endHeaderKw then (true, st)
    else (false, st)

/-- The two assignments `this.header.type = tokens[1]` and
`this.header.version = tokens[2]` of `_parseHeader`. -/
def setFormat (st : PlyData) (t v : JSStr) : PlyData :=
  { st with header := { st.header with type := t, version := v } }

/-- Source `_parseHeader`.  Out-of-range line reads throw `TypeError` on the
`undefined`, which the surrounding `try` turns into `false`; the header
`type`/`version` fields are assigned before they are checked. -/
def parseHeaderFull (st : PlyData) (lines : List JSStr) : Bool × PlyData :=
  match lines[0]? with
  | none => (false, st)
  | some l0 =>
    if jsTrim l0 ≠ plyKw then (false, st)
    else
      match lines[1]? with
      | none => (false, st)
      | some l1 =>
        match splitTokens l1 with
        | [t0, t1, t2] =>
          if t0 ≠ formatKw then (false, setFormat st t1 t2)
          else if (setFormat st t1 t2).header.version ≠ versionOneKw then
            (false, setFormat st t1 t2)
          else parseHeaderLines (setFormat st t1 t2) (lines.drop 2)
        | _ => (false, st)

/-- The `while (line == "")` skip for elements without properties; running
off the end leaves `line` as `undefined`, whose `.split` throws. -/
def skipBlanks (lines : List JSStr) (line : JSStr) (lc : Nat) : Option (JSStr × Nat) :=
  if line = [] then
    match h : lines[lc]? with
    | none => none
    | some l' => skipBlanks lines l' (lc + 1)
  else some (line, lc)
termination_by lines.length - lc
decreasing_by
  have : lc < lines.length := by
    by_contra hge
    rw [List.getElem?_eq_none (by omega)] at h
    exact Option.noConfusion h
  omega

/-- `line = lines[lineCount++]`, with the blank-skip applied exactly when
the element has no properties; `none` is the thrown `TypeError`. -/
def nextContentLine (lines : List JSStr) (lc : Nat) (propsEmpty : Bool) :
    Option (JSStr × Nat) :=
  match lines[lc]? with
  | none => none
  | some line =>
    if propsEmpty then skipBlanks lines line (lc + 1)
    else some (line, lc + 1)

/-- Feed one line's tokens through each property's `parseNext` in
declaration order. -/
def parseInstanceTokens : List Property → List JSStr → Nat → List Property × Nat
  | [], _, iTok => ([], iTok)
  | p :: rest, tokens, iTok =>
    let (p', i') := p.parseNext tokens iTok
    let (rest', i'') := parseInstanceTokens rest tokens i'
    (p' :: rest', i'')

/-- The per-element instance loop of `_parseAscii`. -/
def parseAsciiInstances (lines : List JSStr) :
    Nat → List Property → Nat → List Property × Nat × Bool
  | 0, props, lc => (props, lc, true)
  | Nat.succ k, props, lc =>
    match nextContentLine lines lc props.isEmpty with
    | none => (props, lc, false)
    | some (line, lc') =>
      let (props', _) := parseInstanceTokens props (splitTokens line) 0
      parseAsciiInstances lines k props' lc'

/-- The element loop of `_parseAscii`; a thrown exception stops everything,
leaving later elements untouched. -/
def parseAsciiElems (lines : List JSStr) : List Element → Nat → List Element × Bool
  | [], _ => ([], true)
  | e :: rest, lc =>
    match parseAsciiInstances lines (jsLoopCount e.count) e.properties lc with
    | (props', _, false) => ({ e with properties := props' } :: rest, false)
    | (props', lc', true) =>
      let (rest', ok) := parseAsciiElems lines rest lc'
      ({ e with properties := props' } :: rest', ok)

/-- Source `_parseAscii`; the boolean records whether it ran to completion
or threw (caught by `load`). -/
def parseAscii (st : PlyData) (lines : List JSStr) : Bool × PlyData :=
  let (es, ok) := parseAsciiElems lines st.elements 0
  (ok, { st with elements := es })

/-- One instance's property walk in a binary decoder. -/
def readInstanceProps (little : Bool) (buffer : List Nat) :
    List Property → Nat → List Property × Option Nat
  | [], offset => ([], some offset)
  | p :: rest, offset =>
    let (p', r) := if little then p.readNext buffer offset else p.readNextBigEndian buffer offset
    match r with
    | none => (p' :: rest, none)
    | some off' =>
      let (rest', r') := readInstanceProps little buffer rest off'
      (p' :: rest', r')

/-- The instance loop of `_parseBinary` (little-endian only: the big-endian
decoder has no such loop). -/
def readBinInstances (buffer : List Nat) :
    Nat → List Property → Nat → List Property × Option Nat
  | 0, props, offset => (props, some offset)
  | Nat.succ k, props, offset =>
    match readInstanceProps true buffer props offset with
    | (props', none) => (props', none)
    | (props', some off') => readBinInstances buffer k props' off'

/-- The element loop of `_parseBinary`. -/
def parseBinaryElems (buffer : List Nat) : List Element → Nat → List Element × Option Nat
  | [], offset => ([], some offset)
  | e :: rest, offset =>
    match readBinInstances buffer (jsLoopCount e.count) e.properties offset with
    | (props', none) => ({ e with properties := props' } :: rest, none)
    | (props', some off') =>
      let (rest', r) := parseBinaryElems buffer rest off'
      ({ e with properties := props' } :: rest', r)

/-- Source `_parseBinary` (binary little-endian). -/
def parseBinary (st : PlyData) (buffer : List Nat) : Bool × PlyData :=
  match parseBinaryElems buffer st.elements 0 with
  | (es, none) => (false, { st with elements := es })
  | (es, some _) => (true, { st with elements := es })

/-- The element loop of `_parseBinaryBigEndian`.  Note: faithful to the
source, each element's properties are walked exactly once — there is no
`for (let i = 0; i < element.count; i++)` instance loop here. -/
def parseBinaryBigEndianElems (buffer : List Nat) :
    List Element → Nat → List Element × Option Nat
  | [], offset => ([], some offset)
  | e :: rest, offset =>
    match readInstanceProps false buffer e.properties offset with
    | (props', none) => ({ e with properties := props' } :: rest, none)
    | (props', some off') =>
      let (rest', r) := parseBinaryBigEndianElems buffer rest off'
      ({ e with properties := props' } :: rest', r)

/-- Source `_parseBinaryBigEndian`. -/
def parseBinaryBigEndian (st : PlyData) (buffer : List Nat) : Bool × PlyData :=
  match parseBinaryBigEndianElems buffer st.elements 0 with
  | (es, none) => (false, { st with elements := es })
  | (es, some _) => (true, { st with elements := es })

/-- The byte sequence of `"end_header\n"`. -/
def endHeaderBytes : List Nat := endHeaderNlKw.map Char.toNat

/-- First index at which `endHeaderBytes` occurs, as the scanning loop of
`splitByEndHeader` computes it. -/
def findEndHeaderIdx : List Nat → Option Nat
  | [] => none
  | b :: rest =>
    if endHeaderBytes.isPrefixOf (b :: rest) then some 0
    else (findEndHeaderIdx rest).map (· + 1)

/-- `data.slice(start)` for a possibly negative `start`, as `Uint8Array`
slicing resolves it: negative values count from the end.  In particular
`slice(0)` — which the source reaches when the marker ends exactly at the
end of the buffer — returns the whole buffer. -/
def jsSliceFrom (data : List Nat) (start : Int) : List Nat :=
  if start < 0 then data.drop ((data.length : Int) + start).toNat
  else data.drop start.toNat

/-- Source `splitByEndHeader` inside `load`: split at the first
`"end_header\n"`; `none` models the empty-array (length ≠ 2) result. -/
def splitByEndHeader (data : List Nat) : Option (List Nat × List Nat) :=
  (findEndHeaderIdx data).map fun i =>
    let headerLength := i + endHeaderBytes.length
    (data.take headerLength, jsSliceFrom data ((headerLength : Int) - (data.length : Int)))

/-- Byte buffer decoded to text, one character per byte. -/
def bytesToStr (data : List Nat) : JSStr := data.map Char.ofNat

/-- Text encoded as one byte per character. -/
def strBytes (l : JSStr) : List Nat := l.map Char.toNat

/-- Source `load`, over the already-read byte buffer: split at the marker,
parse the header, then dispatch on the declared format; body-codec
exceptions are caught into `false`, keeping the partial state. -/
def load (st : PlyData) (data : List Nat) : Bool × PlyData :=
  match splitByEndHeader data with
  | none => (false, st)
  | some (hb, bb) =>
    match parseHeaderFull st (splitLines (bytesToStr hb)) with
    | (false, st1) => (false, st1)
    | (true, st1) =>
      if st1.header.type = asciiKw then parseAscii st1 (splitLines (bytesToStr bb))
      else if st1.header.type = binaryLittleEndianKw then parseBinary st1 bb
      else if st1.header.type = binaryBigEndianKw then parseBinaryBigEndian st1 bb
      else (false, st1)

/-- The two accessor-tier failures (§7 of the spec): the source throws
`"vertex element or properties not found"` (MissingField) and
`"invalid vertex properties"` / absent face indices (see `getFaces`). -/
inductive AccessorError where
  | missingField
  | inconsistentData
deriving DecidableEq, Repr

instance {ε α : Type} [DecidableEq ε] [DecidableEq α] : DecidableEq (Except ε α)
  | .error a, .error b =>
    if h : a = b then .isTrue (by rw [h]) else .isFalse (by intro hc; cases hc; exact h rfl)
  | .error _, .ok _ => .isFalse (by intro h; cases h)
  | .ok _, .error _ => .isFalse (by intro h; cases h)
  | .ok a, .ok b =>
    if h : a = b then .isTrue (by rw [h]) else .isFalse (by intro hc; cases hc; exact h rfl)

/-- `this.elements.find(element => element.name === n)`. -/
def findElement (st : PlyData) (n : JSStr) : Option Element :=
  st.elements.find? (fun e => e.name == n)

/-- `element.properties.find(property => property.name === n)`. -/
def Element.findProperty (e : Element) (n : JSStr) : Option Property :=
  e.properties.find? (fun p => p.name == n)

/-- The local `getValues` of `_getVertexValues`: a list property is treated
as an empty value sequence. -/
def getValuesOf : Property → List JSNum
  | .typed p => p.values
  | .typedList _ => []

/-- The interleaving loop of `_getVertexValues`; it is only run once the
three lists are known to have equal length. -/
def interleave3 : List JSNum → List JSNum → List JSNum → List JSNum
  | a :: t1, b :: t2, c :: t3 => a :: b :: c :: interleave3 t1 t2 t3
  | _, _, _ => []

/-- Source `_getVertexValues`. -/
def getVertexValues (st : PlyData) (vertexElementName n1 n2 n3 : JSStr) :
    Except AccessorError (List JSNum) :=
  let vertex := findElement st vertexElementName
  let property1 := vertex.bind (fun v => v.findProperty n1)
  let property2 := vertex.bind (fun v => v.findProperty n2)
  let property3 := vertex.bind (fun v => v.findProperty n3)
  match property1, property2, property3 with
  | some p1, some p2, some p3 =>
    let values1 := getValuesOf p1
    let values2 := getValuesOf p2
    let values3 := getValuesOf p3
    if values1.length ≠ values2.length ∨ values1.length ≠ values3.length then
      .error .inconsistentData
    else .ok (interleave3 values1 values2 values3)
  | _, _, _ => .error .missingField

/-- Source `getVertexPositions`. -/
def getVertexPositions (st : PlyData) (vertexElementName : JSStr := vertexKw) :
    Except AccessorError (List JSNum) :=
  getVertexValues st vertexElementName xKw yKw zKw

/-- Source `getVertexColors`. -/
def getVertexColors (st : PlyData) (vertexElementName : JSStr := vertexKw) :
    Except AccessorError (List JSNum) :=
  getVertexValues st vertexElementName redKw greenKw blueKw

/-- The local `getIndices` of `getFaces`: `null` unless the property exists
and is a `TypedListProperty`. -/
def getIndicesOf : Option Property → Option Faces
  | some (.typedList p) => some { indices := p.flattenedData, strides := p.flattenedIndexStart }
  | some (.typed _) => none
  | none => none

/-- Source `getFaces`. -/
def getFaces (st : PlyData) : Except AccessorError Faces :=
  let face := findElement st faceKw
  let vertexIndices := face.bind (fun f => f.findProperty vertexIndicesKw)
  let vertexIndex := face.bind (fun f => f.findProperty vertexIndexKw)
  match getIndicesOf vertexIndices with
  | some r => .ok r
  | none =>
    match getIndicesOf vertexIndex with
    | some r => .ok r
    | none => .error .missingField

/-! ## The writer (`_writeHeader` and the body part of `save`) -/

/-- Decimal digits of a positive number, least significant first; the first
argument is structural-recursion fuel, always called with at least the
number itself (division by 10 shrinks the value at every step, so the fuel
never runs out). -/
def natDigitsGo : Nat → Nat → List Char
  | _, 0 => []
  | 0, Nat.succ _ => []
  | Nat.succ fuel, Nat.succ n =>
    Char.ofNat (Nat.succ n % 10 + 48) :: natDigitsGo fuel (Nat.succ n / 10)

/-- Decimal digits of a positive number, least significant first. -/
def natDigitsAux (n : Nat) : List Char :=
  natDigitsGo n n

/-- Decimal rendering of a natural number. -/
def renderNat (n : Nat) : JSStr :=
  if n = 0 then [('0')] else (natDigitsAux n).reverse

/-- Decimal rendering of an integer, as JS template interpolation prints it. -/
def renderInt (i : Int) : JSStr :=
  if i < 0 then '-' :: renderNat i.natAbs else renderNat i.toNat

/-- `${x}` for an integer-or-NaN JS number. -/
def renderOptInt : Option Int → JSStr
  | none => nanKw
  | some i => renderInt i

/-- Multiplicity of 2, with structural fuel (the value shrinks at every
division, so fuel equal to the value suffices). -/
def mult2Go : Nat → Nat → Nat
  | _, 0 => 0
  | 0, Nat.succ _ => 0
  | Nat.succ fuel, Nat.succ n =>
    if 2 ∣ Nat.succ n then mult2Go fuel (Nat.succ n / 2) + 1 else 0

/-- Multiplicity of 2 in a natural number. -/
def mult2 (n : Nat) : Nat :=
  mult2Go n n

/-- Multiplicity of 5, with structural fuel. -/
def mult5Go : Nat → Nat → Nat
  | _, 0 => 0
  | 0, Nat.succ _ => 0
  | Nat.succ fuel, Nat.succ n =>
    if 5 ∣ Nat.succ n then mult5Go fuel (Nat.succ n / 5) + 1 else 0

/-- Multiplicity of 5 in a natural number. -/
def mult5 (n : Nat) : Nat :=
  mult5Go n n

/-- Left-pad a digit string with zeros to `k` characters. -/
def padZeros (ds : JSStr) (k : Nat) : JSStr :=
  List.replicate (k - ds.length) '0' ++ ds

/-- Finite decimal rendering of a nonnegative rational.  Every value a JS
number holds is a dyadic rational, so the reachable denominators are of the
form `2^a * 5^b` and the expansion below is exact and minimal, matching
JS number-to-string output for the plain-notation range; the `"?"` branch
is unreachable from decoded values. -/
def renderQPos (q : ℚ) : JSStr :=
  let a := mult2 q.den
  let b := mult5 q.den
  if 2 ^ a * 5 ^ b = q.den then
    let k := max a b
    let n := q.num.toNat * 10 ^ k / q.den
    if k = 0 then renderNat n
    else renderNat (n / 10 ^ k) ++ '.' :: padZeros (renderNat (n % 10 ^ k)) k
  else ("?").toList

/-- Decimal rendering of a rational. -/
def renderQ (q : ℚ) : JSStr :=
  if q < 0 then '-' :: renderQPos (-q) else renderQPos q

/-- `${value}` for a JS number. -/
def renderJSNum : JSNum → JSStr
  | .nan => nanKw
  | .inf true => infinityKw
  | .inf false => ("-Infinity").toList
  | .val q => renderQ q

/-- The canonical name of a property type, as `${property.type}` prints it. -/
def renderTypeStr : PropertyType → JSStr
  | .char => ("char").toList
  | .uchar => ("uchar").toList
  | .short => ("short").toList
  | .ushort => ("ushort").toList
  | .int => ("int").toList
  | .uint => ("uint").toList
  | .float => ("float").toList
  | .double => ("double").toList

/-- `writeHeaderOfProperty`: scalars keep their type, lists are re-declared
with a 1-byte `uchar` count regardless of `listCountBytes`. -/
def propertyHeaderLine (p : Property) : JSStr :=
  match p with
  | .typed tp =>
    propertySpKw ++ renderTypeStr tp.type ++ spaceKw ++ tp.name ++ nlKw
  | .typedList lp =>
    propertyListUcharSpKw ++ renderTypeStr lp.type ++ spaceKw ++ lp.name ++
      nlKw

/-- `writeHeaderOfElement`. -/
def elementHeaderText (e : Element) : JSStr :=
  elementSpKw ++ e.name ++ spaceKw ++ renderOptInt e.count ++ nlKw ++
    (e.properties.map propertyHeaderLine).flatten

/-- Source `_writeHeader`, as the concatenation of everything written. -/
def writeHeaderText (st : PlyData) : JSStr :=
  plyLineKw ++ formatAsciiKw ++ st.header.version ++ nlKw ++
    (st.header.comments.map (fun c => commentSpKw ++ c ++ nlKw)).flatten ++
    (st.header.objInfoComments.map
      (fun c => objInfoSpKw ++ c ++ nlKw)).flatten ++
    (st.elements.map elementHeaderText).flatten ++
    endHeaderNlKw

/-- `flattenedIndexStart[i]` as the JS arithmetic sees it: an out-of-range
read gives `undefined`, which behaves as NaN in the subtraction and the
loop bound, so it collapses onto the stored NaN case. -/
def strideAt (l : List (Option Int)) (i : Nat) : Option Int :=
  (l[i]?).bind id

/-- `${flattenedData[i]}` for an `Int` index (a negative or out-of-range
index reads `undefined`). -/
def renderDataAt (data : List JSNum) (j : Int) : JSStr :=
  if j < 0 then undefinedKw
  else
    match data[j.toNat]? with
    | none => undefinedKw
    | some v => renderJSNum v

/-- The `writeProperty` closure of `save`: the text one property contributes
to one instance line. -/
def writePropertyText (p : Property) (index : Nat) : JSStr :=
  match p with
  | .typed tp =>
    (match tp.values[index]? with
     | some v => renderJSNum v
     | none => undefinedKw) ++ spaceKw
  | .typedList lp =>
    match strideAt lp.flattenedIndexStart index, strideAt lp.flattenedIndexStart (index + 1) with
    | some a, some b =>
      renderInt (b - a) ++
        ((List.range (b - a).toNat).map
          (fun (k : Nat) => ' ' :: renderDataAt lp.flattenedData (a + (k : Int)))).flatten ++ spaceKw
    | _, _ => nanKw ++ spaceKw

/-- One body line of `save`: each property's contribution then `"\n"`. -/
def instanceLineText (e : Element) (i : Nat) : JSStr :=
  (e.properties.map (fun p => writePropertyText p i)).flatten ++ nlKw

/-- All body lines of one element. -/
def elementBodyText (e : Element) : JSStr :=
  ((List.range (jsLoopCount e.count)).map (instanceLineText e)).flatten

/-- Source `save`, as the full text written to the stream.  Within the
model nothing inside the `try` can throw (the third `Property` variant does
not exist), so the boolean is always `true`; opening the stream is external
I/O outside this embedding. -/
def saveText (st : PlyData) : JSStr :=
  writeHeaderText st ++ (st.elements.map elementBodyText).flatten

def save (st : PlyData) : Bool × JSStr :=
  (true, saveText st)

/-! ## Concrete inputs used by the claim theorems -/

/-- A big-endian file whose single element declares two instances of one
`uchar` scalar; the body supplies both bytes. -/
def bigEndianTwoBuf : List Nat :=
  strBytes (("ply\nformat binary_big_endian 1.0\nelement vertex 2\nproperty uchar x\nend_header\n").toList) ++ [7, 9]

/-- The same two-instance file in little-endian form. -/
def littleEndianTwoBuf : List Nat :=
  strBytes (("ply\nformat binary_little_endian 1.0\nelement vertex 2\nproperty uchar x\nend_header\n").toList) ++ [7, 9]

/-- A big-endian file with a two-instance list property; the body holds two
one-element lists. -/
def bigEndianListBuf : List Nat :=
  strBytes (("ply\nformat binary_big_endian 1.0\nelement face 2\nproperty list uchar uchar vertex_indices\nend_header\n").toList) ++ [1, 5, 1, 6]

/-- A binary little-endian file whose body is entirely missing: the buffer
ends at the `end_header\n` marker although `vertex` declares one instance. -/
def truncatedBodyBuf : List Nat :=
  strBytes (("ply\nformat binary_little_endian 1.0\nelement vertex 1\nproperty uchar x\nend_header\n").toList)

/-- A binary little-endian file whose 4-byte `int` body is cut to 2 bytes. -/
def shortBodyBuf : List Nat :=
  strBytes (("ply\nformat binary_little_endian 1.0\nelement vertex 1\nproperty int x\nend_header\n").toList) ++ [1, 2]

/-- An ASCII file whose `face` element carries a scalar property named
`vertex_indices` followed by a list property named `vertex_index`. -/
def scalarIndicesBuf : List Nat :=
  strBytes (("ply\nformat ascii 1.0\nelement face 1\nproperty int vertex_indices\nproperty list uchar int vertex_index\nend_header\n7 1 5\n").toList)

/-- A header whose format token is `xml`. -/
def xmlFormatBuf : List Nat :=
  strBytes (("ply\nformat xml 1.0\nend_header\n").toList)

/-- A header whose version token is `2.0`. -/
def versionTwoBuf : List Nat :=
  strBytes (("ply\nformat ascii 2.0\nend_header\n").toList)

/-! ## C1: the big-endian body decoder versus the little-endian one -/

/-- C1.  The claim states that `_parseBinaryBigEndian` iterates the outer
loop over `element.count` instances exactly like `_parseBinary`.  The code
does not: on a big-endian file declaring `element vertex 2`, the load
succeeds but decodes a single instance (`values = [7]`), while the
little-endian decoder on the same two data bytes produces both instances
(`values = [7, 9]`).  This exhibits the missing instance loop on a concrete
input. -/
theorem c1_big_endian_decoder_skips_instances :
    (load emptyPlyData bigEndianTwoBuf).1 = true ∧
    (load emptyPlyData bigEndianTwoBuf).2.elements =
      [{ name := vertexKw, count := some 2,
         properties := [.typed { name := xKw, type := .uchar,
                                 values := [.val 7] }] }] ∧
    (load emptyPlyData littleEndianTwoBuf).2.elements =
      [{ name := vertexKw, count := some 2,
         properties := [.typed { name := xKw, type := .uchar,
                                 values := [.val 7, .val 9] }] }] ∧
    [JSNum.val 7] ≠ [JSNum.val 7, JSNum.val 9] := by
  decide

/-! ## C2: the `flattenedIndexStart` invariant after a successful load -/

/-- C2.  The claim states that after any successful load, every list
property's `flattenedIndexStart` has length `element.count + 1`.  On a
successful big-endian load of an element with `count = 2`, the decoder's
missing instance loop leaves `flattenedIndexStart = [0, 1]` of length 2,
not 3. -/
theorem c2_flattened_index_start_length_violated :
    (load emptyPlyData bigEndianListBuf).1 = true ∧
    (load emptyPlyData bigEndianListBuf).2.elements =
      [{ name := faceKw, count := some 2,
         properties := [.typedList { name := vertexIndicesKw, type := .uchar,
                                     listCountBytes := 1,
                                     flattenedData := [.val 5],
                                     flattenedIndexStart := [some 0, some 1] }] }] ∧
    ([some 0, some 1] : List (Option Int)).length ≠ jsLoopCount (some 2) + 1 := by
  decide

/-! ## C3: the boolean contract of `load` -/

/-- Whether `"end_header\n"` occurs anywhere in the buffer. -/
def containsEndHeaderMarker (data : List Nat) : Bool :=
  (List.range data.length).any (fun i => endHeaderBytes.isPrefixOf (data.drop i))

theorem findEndHeaderIdx_some_occurrence {data : List Nat} {i : Nat}
    (h : findEndHeaderIdx data = some i) :
    i < data.length ∧ endHeaderBytes.isPrefixOf (data.drop i) = true := by
  induction data generalizing i with
  | nil => exact absurd h (by simp [findEndHeaderIdx])
  | cons b rest ih =>
    rw [findEndHeaderIdx] at h
    split at h
    case isTrue hp =>
      cases h
      exact ⟨Nat.succ_pos _, hp⟩
    case isFalse hp =>
      rw [Option.map_eq_some'] at h
      obtain ⟨j, hj, rfl⟩ := h
      obtain ⟨hlt, hpre⟩ := ih hj
      exact ⟨by simp only [List.length_cons]; omega, by simpa using hpre⟩

theorem contains_of_findEndHeaderIdx {data : List Nat} {i : Nat}
    (h : findEndHeaderIdx data = some i) : containsEndHeaderMarker data = true := by
  obtain ⟨hlt, hpre⟩ := findEndHeaderIdx_some_occurrence h
  unfold containsEndHeaderMarker
  rw [List.any_eq_true]
  exact ⟨i, List.mem_range.mpr hlt, hpre⟩

/-- C3 counterexample.  `truncatedBodyBuf` declares a one-instance binary
element but ends exactly at the `end_header\n` marker — its binary body is
truncated to nothing.  The claim requires `load` to return false; instead
the negative-index `slice` hands the whole buffer back as the body and the
load succeeds. -/
theorem c3_truncated_empty_body_loads_true :
    splitByEndHeader truncatedBodyBuf = some (truncatedBodyBuf, truncatedBodyBuf) ∧
    (load emptyPlyData truncatedBodyBuf).1 = true := by
  constructor
  · decide
  · decide

/-- C3 as amended.  `load` returns a boolean and returns `true` exactly when
the marker split, the header parse, and the format-dispatched body parse all
succeed; it returns `false` whenever the `end_header` marker is absent (and
so on any malformed-header, unknown-type, unsupported-format or mid-body
truncation failure, which falsify one of the three stages) — except that a
binary body truncated to exactly zero bytes is re-fed the whole buffer by
the split quirk and can load successfully, as witnessed above. -/
theorem c3_load_boolean_contract :
    (∀ data : List Nat, containsEndHeaderMarker data = false →
      (load emptyPlyData data).1 = false) ∧
    (∀ data : List Nat,
      (load emptyPlyData data).1 = true ↔
        ∃ hb bb, splitByEndHeader data = some (hb, bb) ∧
          (parseHeaderFull emptyPlyData (splitLines (bytesToStr hb))).1 = true ∧
          (let st1 := (parseHeaderFull emptyPlyData (splitLines (bytesToStr hb))).2
           (st1.header.type = asciiKw ∧
             (parseAscii st1 (splitLines (bytesToStr bb))).1 = true) ∨
           (st1.header.type = binaryLittleEndianKw ∧
             (parseBinary st1 bb).1 = true) ∨
           (st1.header.type = binaryBigEndianKw ∧
             (parseBinaryBigEndian st1 bb).1 = true))) ∧
    (load emptyPlyData shortBodyBuf).1 = false ∧
    (load emptyPlyData xmlFormatBuf).1 = false := by
  refine ⟨?_, ?_, by decide, by decide⟩
  · intro data hc
    unfold load splitByEndHeader
    cases hf : findEndHeaderIdx data with
    | none => simp
    | some i => rw [contains_of_findEndHeaderIdx hf] at hc; cases hc
  · intro data
    unfold load
    cases hsplit : splitByEndHeader data with
    | none =>
      simp only [hsplit]
      constructor
      · intro h; cases h
      · rintro ⟨hb, bb, hsome, -⟩; cases hsome
    | some p =>
      obtain ⟨hb, bb⟩ := p
      simp only [hsplit]
      cases hhd : parseHeaderFull emptyPlyData (splitLines (bytesToStr hb)) with
      | mk ok st1 =>
        cases ok with
        | false =>
          simp only []
          constructor
          · intro h; cases h
          · rintro ⟨hb', bb', hsome, hhd', -⟩
            cases hsome
            rw [hhd] at hhd'
            cases hhd'
        | true =>
          simp only []
          by_cases ha : st1.header.type = asciiKw
          · simp only [ha, if_true]
            constructor
            · intro h
              exact ⟨hb, bb, rfl, by rw [hhd], by rw [hhd]; exact Or.inl ⟨ha, h⟩⟩
            · rintro ⟨hb', bb', hsome, -, hbody⟩
              cases hsome
              rw [hhd] at hbody
              rcases hbody with ⟨-, h⟩ | ⟨hty, -⟩ | ⟨hty, -⟩
              · exact h
              · rw [ha] at hty; cases hty
              · rw [ha] at hty; cases hty
          · by_cases hl : st1.header.type = binaryLittleEndianKw
            · simp only [ha, hl, if_false, if_true]
              constructor
              · intro h
                exact ⟨hb, bb, rfl, by rw [hhd], by rw [hhd]; exact Or.inr (Or.inl ⟨hl, h⟩)⟩
              · rintro ⟨hb', bb', hsome, -, hbody⟩
                cases hsome
                rw [hhd] at hbody
                rcases hbody with ⟨hty, -⟩ | ⟨-, h⟩ | ⟨hty, -⟩
                · exact absurd hty ha
                · exact h
                · rw [hl] at hty; cases hty
            · by_cases hbe : st1.header.type = binaryBigEndianKw
              · simp only [ha, hl, hbe, if_false, if_true]
                constructor
                · intro h
                  exact ⟨hb, bb, rfl, by rw [hhd], by rw [hhd]; exact Or.inr (Or.inr ⟨hbe, h⟩)⟩
                · rintro ⟨hb', bb', hsome, -, hbody⟩
                  cases hsome
                  rw [hhd] at hbody
                  rcases hbody with ⟨hty, -⟩ | ⟨hty, -⟩ | ⟨-, h⟩
                  · exact absurd hty ha
                  · exact absurd hty hl
                  · exact h
              · simp only [ha, hl, hbe, if_false]
                constructor
                · intro h; cases h
                · rintro ⟨hb', bb', hsome, -, hbody⟩
                  cases hsome
                  rw [hhd] at hbody
                  rcases hbody with ⟨hty, -⟩ | ⟨hty, -⟩ | ⟨hty, -⟩
                  · exact absurd hty ha
                  · exact absurd hty hl
                  · exact absurd hty hbe

/-- Witness for `c3_load_boolean_contract`: a buffer with no marker loads
to `false`. -/
theorem c3_load_boolean_contract_witness :
    containsEndHeaderMarker [112, 108, 121] = false ∧
    (load emptyPlyData [112, 108, 121]).1 = false :=
  ⟨by decide, c3_load_boolean_contract.1 [112, 108, 121] (by decide)⟩

/-! ## C5: `getVertexPositions` -/

theorem interleave3_length (l1 : List JSNum) :
    ∀ l2 l3 : List JSNum, l1.length = l2.length → l1.length = l3.length →
      (interleave3 l1 l2 l3).length = 3 * l1.length := by
  induction l1 with
  | nil =>
    intro l2 l3 h2 h3
    cases l2 <;> cases l3 <;> simp_all [interleave3]
  | cons a t1 ih =>
    intro l2 l3 h2 h3
    cases l2 with
    | nil => simp at h2
    | cons b t2 =>
      cases l3 with
      | nil => simp at h3
      | cons c t3 =>
        simp only [interleave3, List.length_cons]
        rw [ih t2 t3 (by simpa using h2) (by simpa using h3)]
        ring

theorem interleave3_get (l1 : List JSNum) :
    ∀ l2 l3 : List JSNum, l1.length = l2.length → l1.length = l3.length →
      ∀ i, i < l1.length →
        (interleave3 l1 l2 l3)[3 * i]? = l1[i]? ∧
        (interleave3 l1 l2 l3)[3 * i + 1]? = l2[i]? ∧
        (interleave3 l1 l2 l3)[3 * i + 2]? = l3[i]? := by
  induction l1 with
  | nil => intro l2 l3 _ _ i hi; simp at hi
  | cons a t1 ih =>
    intro l2 l3 h2 h3 i hi
    cases l2 with
    | nil => simp at h2
    | cons b t2 =>
      cases l3 with
      | nil => simp at h3
      | cons c t3 =>
        cases i with
        | zero => simp [interleave3]
        | succ j =>
          have harith : 3 * (j + 1) = 3 * j + 1 + 1 + 1 := by ring
          have h2' : t1.length = t2.length := by simpa using h2
          have h3' : t1.length = t3.length := by simpa using h3
          have hj : j < t1.length := by simpa [Nat.succ_lt_succ_iff] using hi
          obtain ⟨g0, g1, g2⟩ := ih t2 t3 h2' h3' j hj
          refine ⟨?_, ?_, ?_⟩
          · rw [harith]; simpa [interleave3] using g0
          · rw [harith]; simpa [interleave3] using g1
          · rw [harith]; simpa [interleave3] using g2

/-- C5.  `getVertexPositions` fails with MissingField when the element or
any of the `x`/`y`/`z` properties is absent; a located list property
yields an empty value sequence; unequal value-sequence lengths fail with
InconsistentData; otherwise the result is the interleaving
`[x0, y0, z0, x1, y1, z1, ...]` of the three value sequences, of length
three times the vertex count. -/
theorem c5_get_vertex_positions_contract :
    (∀ st vname, findElement st vname = none →
      getVertexPositions st vname = .error .missingField) ∧
    (∀ st vname v, findElement st vname = some v →
      (v.findProperty xKw = none ∨ v.findProperty yKw = none ∨
        v.findProperty zKw = none) →
      getVertexPositions st vname = .error .missingField) ∧
    (∀ lp : TypedListProperty, getValuesOf (.typedList lp) = []) ∧
    (∀ st vname v p1 p2 p3, findElement st vname = some v →
      v.findProperty xKw = some p1 →
      v.findProperty yKw = some p2 →
      v.findProperty zKw = some p3 →
      ((getValuesOf p1).length ≠ (getValuesOf p2).length ∨
        (getValuesOf p1).length ≠ (getValuesOf p3).length) →
      getVertexPositions st vname = .error .inconsistentData) ∧
    (∀ st vname v p1 p2 p3, findElement st vname = some v →
      v.findProperty xKw = some p1 →
      v.findProperty yKw = some p2 →
      v.findProperty zKw = some p3 →
      (getValuesOf p1).length = (getValuesOf p2).length →
      (getValuesOf p1).length = (getValuesOf p3).length →
      getVertexPositions st vname =
        .ok (interleave3 (getValuesOf p1) (getValuesOf p2) (getValuesOf p3)) ∧
      (interleave3 (getValuesOf p1) (getValuesOf p2) (getValuesOf p3)).length =
        3 * (getValuesOf p1).length ∧
      (∀ i, i < (getValuesOf p1).length →
        (interleave3 (getValuesOf p1) (getValuesOf p2) (getValuesOf p3))[3 * i]? =
          (getValuesOf p1)[i]? ∧
        (interleave3 (getValuesOf p1) (getValuesOf p2) (getValuesOf p3))[3 * i + 1]? =
          (getValuesOf p2)[i]? ∧
        (interleave3 (getValuesOf p1) (getValuesOf p2) (getValuesOf p3))[3 * i + 2]? =
          (getValuesOf p3)[i]?)) := by
  refine ⟨?_, ?_, fun lp => rfl, ?_, ?_⟩
  · intro st vname h
    simp [getVertexPositions, getVertexValues, h]
  · intro st vname v hv habs
    rcases habs with hx | hy | hz
    · simp [getVertexPositions, getVertexValues, hv, hx]
    · cases hx : v.findProperty xKw with
      | none => simp [getVertexPositions, getVertexValues, hv, hx]
      | some p1 => simp [getVertexPositions, getVertexValues, hv, hx, hy]
    · cases hx : v.findProperty xKw with
      | none => simp [getVertexPositions, getVertexValues, hv, hx]
      | some p1 =>
        cases hy : v.findProperty yKw with
        | none => simp [getVertexPositions, getVertexValues, hv, hx, hy]
        | some p2 => simp [getVertexPositions, getVertexValues, hv, hx, hy, hz]
  · intro st vname v p1 p2 p3 hv hx hy hz hne
    simp only [getVertexPositions, getVertexValues, hv, Option.some_bind, hx, hy, hz]
    rw [if_pos hne]
  · intro st vname v p1 p2 p3 hv hx hy hz h2 h3
    refine ⟨?_, interleave3_length _ _ _ h2 h3, interleave3_get _ _ _ h2 h3⟩
    simp only [getVertexPositions, getVertexValues, hv, Option.some_bind, hx, hy, hz]
    rw [if_neg (by push_neg; exact ⟨h2, h3⟩)]

/-- Witness for `c5_get_vertex_positions_contract`, on the model loaded from
a two-vertex ASCII file. -/
def asciiTwoVertexBuf : List Nat :=
  strBytes (("ply\nformat ascii 1.0\nelement vertex 2\nproperty float x\nproperty float y\nproperty float z\nend_header\n-0.5 0.5 1\n0.25 2 3\n").toList)

theorem c5_get_vertex_positions_contract_witness :
    findElement (load emptyPlyData asciiTwoVertexBuf).2 vertexKw ≠ none ∧
    getVertexPositions (load emptyPlyData asciiTwoVertexBuf).2 vertexKw =
      .ok [.val (mkRat (-1) 2), .val (mkRat 1 2), .val 1, .val (mkRat 1 4), .val 2, .val 3] := by
  constructor
  · decide
  · have h := (c5_get_vertex_positions_contract.2.2.2.2
      (load emptyPlyData asciiTwoVertexBuf).2 vertexKw
      { name := vertexKw, count := some 2,
        properties :=
          [.typed { name := xKw, type := .float,
                    values := [.val (mkRat (-1) 2), .val (mkRat 1 4)] },
           .typed { name := yKw, type := .float,
                    values := [.val (mkRat 1 2), .val 2] },
           .typed { name := zKw, type := .float,
                    values := [.val 1, .val 3] }] }
      (.typed { name := xKw, type := .float,
                values := [.val (mkRat (-1) 2), .val (mkRat 1 4)] })
      (.typed { name := yKw, type := .float,
                values := [.val (mkRat 1 2), .val 2] })
      (.typed { name := zKw, type := .float,
                values := [.val 1, .val 3] })
      (by decide) (by decide) (by decide) (by decide) (by decide) (by decide)).1
    rw [h]
    decide

/-! ## C6: `getFaces` -/

/-- C6 counterexample.  After loading `scalarIndicesBuf`, the `face`
element carries a *scalar* property named `vertex_indices` — so the
property name is present — yet `getFaces` neither uses it nor fails with
MissingField: it silently falls back to the list property `vertex_index`. -/
theorem c6_scalar_vertex_indices_falls_back :
    (load emptyPlyData scalarIndicesBuf).1 = true ∧
    ((findElement (load emptyPlyData scalarIndicesBuf).2 faceKw).bind
      (fun f => f.findProperty vertexIndicesKw)) =
      some (.typed { name := vertexIndicesKw, type := .int,
                     values := [.val 7] }) ∧
    getFaces (load emptyPlyData scalarIndicesBuf).2 =
      .ok { indices := [.val 5], strides := [some 0, some 1] } := by
  refine ⟨by decide, by decide, by decide⟩

/-- C6 as amended.  `getFaces` uses the `face` element's `vertex_indices`
property when it exists *and is a list property*, returning its
`flattenedData`/`flattenedIndexStart` unchanged as `{indices, strides}`;
it falls back to `vertex_index` whenever `vertex_indices` is absent *or is
not a list property*; it fails with MissingField exactly when neither name
resolves to a list property (including the absent-`face`-element case). -/
theorem c6_get_faces_characterization :
    (∀ st f lp, findElement st faceKw = some f →
      f.findProperty vertexIndicesKw = some (.typedList lp) →
      getFaces st = .ok { indices := lp.flattenedData, strides := lp.flattenedIndexStart }) ∧
    (∀ st f lp, findElement st faceKw = some f →
      (f.findProperty vertexIndicesKw = none ∨
        ∃ tp, f.findProperty vertexIndicesKw = some (.typed tp)) →
      f.findProperty vertexIndexKw = some (.typedList lp) →
      getFaces st = .ok { indices := lp.flattenedData, strides := lp.flattenedIndexStart }) ∧
    (∀ st f, findElement st faceKw = some f →
      (f.findProperty vertexIndicesKw = none ∨
        ∃ tp, f.findProperty vertexIndicesKw = some (.typed tp)) →
      (f.findProperty vertexIndexKw = none ∨
        ∃ tp, f.findProperty vertexIndexKw = some (.typed tp)) →
      getFaces st = .error .missingField) ∧
    (∀ st, findElement st faceKw = none →
      getFaces st = .error .missingField) := by
  refine ⟨?_, ?_, ?_, ?_⟩
  · intro st f lp hf hvi
    simp [getFaces, hf, hvi, getIndicesOf]
  · intro st f lp hf hvi hvix
    rcases hvi with hvi | ⟨tp, hvi⟩ <;>
      simp [getFaces, hf, hvi, hvix, getIndicesOf]
  · intro st f hf hvi hvix
    rcases hvi with hvi | ⟨tp, hvi⟩ <;> rcases hvix with hvix | ⟨tp2, hvix⟩ <;>
      simp [getFaces, hf, hvi, hvix, getIndicesOf]
  · intro st h
    simp [getFaces, h, getIndicesOf]

/-- Witness for `c6_get_faces_characterization`: the fallback clause applied
to the loaded `scalarIndicesBuf` model. -/
theorem c6_get_faces_characterization_witness :
    getFaces (load emptyPlyData scalarIndicesBuf).2 =
      .ok { indices := [.val 5], strides := [some 0, some 1] } :=
  c6_get_faces_characterization.2.1
    (load emptyPlyData scalarIndicesBuf).2
    { name := faceKw, count := some 1,
      properties :=
        [.typed { name := vertexIndicesKw, type := .int, values := [.val 7] },
         .typedList { name := vertexIndexKw, type := .int, listCountBytes := 1,
                      flattenedData := [.val 5], flattenedIndexStart := [some 0, some 1] }] }
    { name := vertexIndexKw, type := .int, listCountBytes := 1,
      flattenedData := [.val 5], flattenedIndexStart := [some 0, some 1] }
    (by decide)
    (Or.inr ⟨{ name := vertexIndicesKw, type := .int, values := [.val 7] },
      by decide⟩)
    (by decide)

/-! ## C8: `getVertexColors` without color properties -/

/-- C8.  On a model whose vertex element exists but has no property named
`red`, `green` or `blue`, `getVertexColors` fails with MissingField — it
cannot return any (empty or default) value sequence. -/
theorem c8_get_vertex_colors_missing_field
    (st : PlyData) (vname : JSStr) (v : Element)
    (hv : findElement st vname = some v)
    (habs : ∀ p ∈ v.properties,
      p.name ≠ redKw ∧ p.name ≠ greenKw ∧ p.name ≠ blueKw) :
    getVertexColors st vname = .error .missingField := by
  have hred : v.findProperty redKw = none := by
    rw [Element.findProperty, List.find?_eq_none]
    intro p hp
    simpa using (habs p hp).1
  simp [getVertexColors, getVertexValues, hv, hred]

/-- Witness for `c8_get_vertex_colors_missing_field`, on the loaded
`scalarIndicesBuf` model's `face` element. -/
theorem c8_get_vertex_colors_missing_field_witness :
    getVertexColors (load emptyPlyData scalarIndicesBuf).2 faceKw =
      .error .missingField :=
  c8_get_vertex_colors_missing_field
    (load emptyPlyData scalarIndicesBuf).2 faceKw
    { name := faceKw, count := some 1,
      properties :=
        [.typed { name := vertexIndicesKw, type := .int, values := [.val 7] },
         .typedList { name := vertexIndexKw, type := .int, listCountBytes := 1,
                      flattenedData := [.val 5], flattenedIndexStart := [some 0, some 1] }] }
    (by decide) (by decide)

/-! ## C7: unsupported format token or wrong version -/

theorem parseHeaderLines_preserves_format (ls : List JSStr) :
    ∀ st : PlyData, (parseHeaderLines st ls).2.header.type = st.header.type ∧
      (parseHeaderLines st ls).2.header.version = st.header.version := by
  induction ls with
  | nil => intro st; exact ⟨rfl, rfl⟩
  | cons l rest ih =>
    intro st
    simp only [parseHeaderLines]
    repeat' split
    all_goals first
      | exact ⟨rfl, rfl⟩
      | exact ih _

theorem setFormat_version (st : PlyData) (t v : JSStr) :
    (setFormat st t v).header.version = v := rfl

theorem setFormat_type (st : PlyData) (t v : JSStr) :
    (setFormat st t v).header.type = t := rfl

theorem parseHeaderFull_true_format {st : PlyData} {lines : List JSStr} {l1 t v : JSStr}
    {r : Bool × PlyData}
    (hl1 : lines[1]? = some l1) (htok : splitTokens l1 = [formatKw, t, v])
    (hr : parseHeaderFull st lines = r) (htrue : r.1 = true) :
    r.2.header.type = t ∧ v = versionOneKw := by
  unfold parseHeaderFull at hr
  cases h0 : lines[0]? with
  | none => simp only [h0] at hr; rw [← hr] at htrue; simp at htrue
  | some l0 =>
    simp only [h0] at hr
    by_cases hply : jsTrim l0 ≠ plyKw
    · rw [if_pos hply] at hr; rw [← hr] at htrue; simp at htrue
    · rw [if_neg hply] at hr
      simp only [hl1] at hr
      simp only [htok] at hr
      rw [if_neg (show ¬ formatKw ≠ formatKw from by simp)] at hr
      rw [setFormat_version] at hr
      by_cases hv : v ≠ versionOneKw
      · rw [if_pos hv] at hr; rw [← hr] at htrue; simp at htrue
      · rw [if_neg hv] at hr
        rw [← hr]
        exact ⟨(parseHeaderLines_preserves_format _ _).1, not_not.mp hv⟩

/-- C7.  Whenever the header's format line tokenizes as
`["format", t, v]` with `t` outside the three supported formats or
`v ≠ "1.0"`, `load` returns false: an unsupported version fails inside
`_parseHeader`, while an unsupported format token passes the header parse
(`type` is stored unchecked) and then falls through the body-codec switch
to the default `false`. -/
theorem c7_unsupported_format_or_version_fails
    (data hb bb : List Nat) (l1 t v : JSStr)
    (hsplit : splitByEndHeader data = some (hb, bb))
    (hl1 : (splitLines (bytesToStr hb))[1]? = some l1)
    (htok : splitTokens l1 = [formatKw, t, v])
    (hbad : (t ≠ asciiKw ∧ t ≠ binaryLittleEndianKw ∧ t ≠ binaryBigEndianKw) ∨
      v ≠ versionOneKw) :
    (load emptyPlyData data).1 = false := by
  unfold load
  simp only [hsplit]
  cases hhd : parseHeaderFull emptyPlyData (splitLines (bytesToStr hb)) with
  | mk ok st1 =>
    cases ok with
    | false => simp only [hhd]
    | true =>
      obtain ⟨hty, hver⟩ := parseHeaderFull_true_format hl1 htok hhd rfl
      rcases hbad with ⟨h1, h2, h3⟩ | hv
      · have hty' : st1.header.type = t := hty
        simp only [hhd, hty']
        rw [if_neg h1, if_neg h2, if_neg h3]
      · exact absurd hver hv

/-- Witness for `c7_unsupported_format_or_version_fails`: a `format xml`
header and a `format ascii 2.0` header both load to false. -/
theorem c7_unsupported_format_or_version_fails_witness :
    (load emptyPlyData xmlFormatBuf).1 = false ∧
    (load emptyPlyData versionTwoBuf).1 = false := by
  constructor
  · exact c7_unsupported_format_or_version_fails xmlFormatBuf
      xmlFormatBuf xmlFormatBuf (("format xml 1.0").toList)
      (("xml").toList) versionOneKw (by decide) (by decide) (by decide)
      (Or.inl ⟨by decide, by decide, by decide⟩)
  · exact c7_unsupported_format_or_version_fails versionTwoBuf
      versionTwoBuf versionTwoBuf (("format ascii 2.0").toList)
      asciiKw (("2.0").toList) (by decide) (by decide) (by decide)
      (Or.inr (by decide))

/-! ## C10: the element count token is never validated -/

/-- C10.  (a) Any header line starting with `element` that splits into
exactly 3 tokens is accepted, and the element is stored with the raw
`parseInt` of the third token as its count — no numeric validation
happens; (b) a NaN or non-positive stored count gives zero loop
iterations; (c,d) the ASCII and binary body decoders skip such an element
entirely, leaving its properties untouched and consuming no input. -/
theorem c10_element_count_unvalidated :
    (∀ (st : PlyData) (suf : JSStr) (rest : List JSStr) (t0 t1 t2 : JSStr),
      splitTokens (elementKw ++ suf) = [t0, t1, t2] →
      parseHeaderLines st ((elementKw ++ suf) :: rest) =
        parseHeaderLines
          (pushElement st { name := t1, count := parseIntJS t2, properties := [] }) rest) ∧
    (∀ c : Option Int, (c = none ∨ ∃ i, c = some i ∧ i ≤ 0) → jsLoopCount c = 0) ∧
    (∀ (lines : List JSStr) (lc : Nat) (e : Element), jsLoopCount e.count = 0 →
      parseAsciiInstances lines (jsLoopCount e.count) e.properties lc =
        (e.properties, lc, true)) ∧
    (∀ (buffer : List Nat) (offset : Nat) (e : Element), jsLoopCount e.count = 0 →
      readBinInstances buffer (jsLoopCount e.count) e.properties offset =
        (e.properties, some offset)) := by
  refine ⟨?_, ?_, ?_, ?_⟩
  · intro st suf rest t0 t1 t2 htok
    have hblank : ¬ (elementKw ++ suf) = [] := by simp [elementKw]
    have hcomment : ¬ (listStartsWith (elementKw ++ suf) commentKw = true) := by
      rw [show listStartsWith (elementKw ++ suf) commentKw = false from rfl]
      simp
    have hobj : ¬ (listStartsWith (elementKw ++ suf) objInfoKw = true) := by
      rw [show listStartsWith (elementKw ++ suf) objInfoKw = false from rfl]
      simp
    have helem : listStartsWith (elementKw ++ suf) elementKw = true := by
      rw [listStartsWith, List.isPrefixOf_iff_prefix]
      exact List.prefix_append _ _
    simp only [parseHeaderLines, if_neg hblank, hcomment, hobj, helem, if_false, if_true,
      Bool.false_eq_true, htok]
  · intro c h
    rcases h with rfl | ⟨i, rfl, hi⟩
    · rfl
    · simp only [jsLoopCount]
      omega
  · intro lines lc e h
    rw [h]
    rfl
  · intro buffer offset e h
    rw [h]
    rfl

/-- Witness for `c10_element_count_unvalidated`: an element line with a
negative count token parses and is stored as `-3`; NaN and `-3` counts
both loop zero times. -/
theorem c10_element_count_unvalidated_witness :
    parseHeaderLines emptyPlyData [elementKw ++ ((" v -3").toList)] =
      parseHeaderLines
        (pushElement emptyPlyData
          { name := ("v").toList, count := parseIntJS (("-3").toList), properties := [] })
        [] ∧
    jsLoopCount (some (-3)) = 0 ∧
    jsLoopCount none = 0 ∧
    parseIntJS (("-3").toList) = some (-3) := by
  refine ⟨?_, ?_, ?_, by decide⟩
  · exact c10_element_count_unvalidated.1 emptyPlyData ((" v -3").toList) []
      elementKw (("v").toList) (("-3").toList) (by decide)
  · exact c10_element_count_unvalidated.2.1 (some (-3)) (Or.inr ⟨-3, rfl, by decide⟩)
  · exact c10_element_count_unvalidated.2.1 none (Or.inl rfl)

/-! ## C9: a second `load` appends to the existing state -/

/-- The name/count signature of an element; body decoding only ever touches
`properties`, so this is invariant under the body codecs. -/
def nameCount (e : Element) : JSStr × Option Int := (e.name, e.count)

theorem pushToLastElement_map_nameCount (es : List Element) (p : Property) :
    (pushToLastElement es p).map nameCount = es.map nameCount := by
  induction es with
  | nil => rfl
  | cons e rest ih =>
    cases rest with
    | nil => rfl
    | cons f fs =>
      simp only [pushToLastElement, List.map_cons]
      rw [ih]
      rfl

/-- `b` extends `a`: comments, obj_info comments and element signatures of
`a` are initial segments of those of `b`. -/
def ExtendsState (a b : PlyData) : Prop :=
  a.header.comments <+: b.header.comments ∧
  a.header.objInfoComments <+: b.header.objInfoComments ∧
  a.elements.map nameCount <+: b.elements.map nameCount

theorem extendsState_refl (a : PlyData) : ExtendsState a a :=
  ⟨List.prefix_refl _, List.prefix_refl _, List.prefix_refl _⟩

theorem extendsState_trans {a b c : PlyData}
    (h1 : ExtendsState a b) (h2 : ExtendsState b c) : ExtendsState a c :=
  ⟨h1.1.trans h2.1, h1.2.1.trans h2.2.1, h1.2.2.trans h2.2.2⟩

theorem pushComment_extendsState (st : PlyData) (c : JSStr) :
    ExtendsState st (pushComment st c) :=
  ⟨List.prefix_append _ _, List.prefix_refl _, List.prefix_refl _⟩

theorem pushObjInfo_extendsState (st : PlyData) (c : JSStr) :
    ExtendsState st (pushObjInfo st c) :=
  ⟨List.prefix_refl _, List.prefix_append _ _, List.prefix_refl _⟩

theorem pushElement_extendsState (st : PlyData) (e : Element) :
    ExtendsState st (pushElement st e) := by
  refine ⟨List.prefix_refl _, List.prefix_refl _, ?_⟩
  simp only [pushElement, List.map_append]
  exact List.prefix_append _ _

theorem pushPropertyToLast_extendsState (st : PlyData) (p : Property) :
    ExtendsState st (pushPropertyToLast st p) := by
  refine ⟨List.prefix_refl _, List.prefix_refl _, ?_⟩
  show st.elements.map nameCount <+: (pushToLastElement st.elements p).map nameCount
  rw [pushToLastElement_map_nameCount]

theorem parseHeaderLines_extendsState (ls : List JSStr) :
    ∀ st : PlyData, ExtendsState st (parseHeaderLines st ls).2 := by
  induction ls with
  | nil => intro st; exact extendsState_refl st
  | cons l rest ih =>
    intro st
    simp only [parseHeaderLines]
    repeat' split
    all_goals first
      | exact extendsState_refl st
      | exact ih st
      | exact extendsState_trans (pushComment_extendsState st _) (ih _)
      | exact extendsState_trans (pushObjInfo_extendsState st _) (ih _)
      | exact extendsState_trans (pushElement_extendsState st _) (ih _)
      | exact extendsState_trans (pushPropertyToLast_extendsState st _) (ih _)

theorem setFormat_extendsState (st : PlyData) (t v : JSStr) :
    ExtendsState st (setFormat st t v) :=
  ⟨List.prefix_refl _, List.prefix_refl _, List.prefix_refl _⟩

theorem parseHeaderFull_extendsState (st : PlyData) (lines : List JSStr) :
    ExtendsState st (parseHeaderFull st lines).2 := by
  rcases hr : parseHeaderFull st lines with ⟨ok, st1⟩
  show ExtendsState st st1
  unfold parseHeaderFull at hr
  cases h0 : lines[0]? with
  | none => simp only [h0] at hr; cases hr; exact extendsState_refl st
  | some l0 =>
    simp only [h0] at hr
    by_cases hply : jsTrim l0 ≠ plyKw
    · rw [if_pos hply] at hr; cases hr; exact extendsState_refl st
    · rw [if_neg hply] at hr
      cases h1 : lines[1]? with
      | none => simp only [h1] at hr; cases hr; exact extendsState_refl st
      | some l1 =>
        simp only [h1] at hr
        split at hr
        · split at hr
          · cases hr; exact setFormat_extendsState st _ _
          · split at hr
            · cases hr; exact setFormat_extendsState st _ _
            · rename_i x0 hd t1 t2 heq2 hfmt hver
              have h2 := parseHeaderLines_extendsState (List.drop 2 lines) (setFormat st t1 t2)
              rw [hr] at h2
              exact extendsState_trans (setFormat_extendsState st t1 t2) h2
        · cases hr; exact extendsState_refl st

theorem parseAsciiElems_map_nameCount (lines : List JSStr) :
    ∀ (es : List Element) (lc : Nat),
      (parseAsciiElems lines es lc).1.map nameCount = es.map nameCount := by
  intro es
  induction es with
  | nil => intro lc; rfl
  | cons e rest ih =>
    intro lc
    rcases hinst : parseAsciiInstances lines (jsLoopCount e.count) e.properties lc with
      ⟨props', lc', ok⟩
    cases ok with
    | false => simp [parseAsciiElems, hinst, nameCount]
    | true =>
      rcases hres : parseAsciiElems lines rest lc' with ⟨rest', ok2⟩
      have hmap := ih lc'
      rw [hres] at hmap
      simp [parseAsciiElems, hinst, hres, nameCount, hmap]

theorem parseBinaryElems_map_nameCount (buffer : List Nat) :
    ∀ (es : List Element) (offset : Nat),
      (parseBinaryElems buffer es offset).1.map nameCount = es.map nameCount := by
  intro es
  induction es with
  | nil => intro offset; rfl
  | cons e rest ih =>
    intro offset
    rcases hinst : readBinInstances buffer (jsLoopCount e.count) e.properties offset with
      ⟨props', r⟩
    cases r with
    | none => simp [parseBinaryElems, hinst, nameCount]
    | some off' =>
      rcases hres : parseBinaryElems buffer rest off' with ⟨rest', r2⟩
      have hmap := ih off'
      rw [hres] at hmap
      simp [parseBinaryElems, hinst, hres, nameCount, hmap]

theorem parseBinaryBigEndianElems_map_nameCount (buffer : List Nat) :
    ∀ (es : List Element) (offset : Nat),
      (parseBinaryBigEndianElems buffer es offset).1.map nameCount = es.map nameCount := by
  intro es
  induction es with
  | nil => intro offset; rfl
  | cons e rest ih =>
    intro offset
    rcases hinst : readInstanceProps false buffer e.properties offset with ⟨props', r⟩
    cases r with
    | none => simp [parseBinaryBigEndianElems, hinst, nameCount]
    | some off' =>
      rcases hres : parseBinaryBigEndianElems buffer rest off' with ⟨rest', r2⟩
      have hmap := ih off'
      rw [hres] at hmap
      simp [parseBinaryBigEndianElems, hinst, hres, nameCount, hmap]

theorem parseAscii_extendsState (st : PlyData) (lines : List JSStr) :
    ExtendsState st (parseAscii st lines).2 := by
  rcases h : parseAsciiElems lines st.elements 0 with ⟨es, ok⟩
  have hmap := parseAsciiElems_map_nameCount lines st.elements 0
  rw [h] at hmap
  refine ⟨?_, ?_, ?_⟩ <;> simp only [parseAscii, h]
  · exact List.prefix_refl _
  · exact List.prefix_refl _
  · show st.elements.map nameCount <+: es.map nameCount
    rw [hmap]

theorem parseBinary_extendsState (st : PlyData) (buffer : List Nat) :
    ExtendsState st (parseBinary st buffer).2 := by
  rcases h : parseBinaryElems buffer st.elements 0 with ⟨es, r⟩
  have hmap := parseBinaryElems_map_nameCount buffer st.elements 0
  rw [h] at hmap
  cases r with
  | none =>
    refine ⟨?_, ?_, ?_⟩ <;> simp only [parseBinary, h]
    · exact List.prefix_refl _
    · exact List.prefix_refl _
    · show st.elements.map nameCount <+: es.map nameCount
      rw [hmap]
  | some off =>
    refine ⟨?_, ?_, ?_⟩ <;> simp only [parseBinary, h]
    · exact List.prefix_refl _
    · exact List.prefix_refl _
    · show st.elements.map nameCount <+: es.map nameCount
      rw [hmap]

theorem parseBinaryBigEndian_extendsState (st : PlyData) (buffer : List Nat) :
    ExtendsState st (parseBinaryBigEndian st buffer).2 := by
  rcases h : parseBinaryBigEndianElems buffer st.elements 0 with ⟨es, r⟩
  have hmap := parseBinaryBigEndianElems_map_nameCount buffer st.elements 0
  rw [h] at hmap
  cases r with
  | none =>
    refine ⟨?_, ?_, ?_⟩ <;> simp only [parseBinaryBigEndian, h]
    · exact List.prefix_refl _
    · exact List.prefix_refl _
    · show st.elements.map nameCount <+: es.map nameCount
      rw [hmap]
  | some off =>
    refine ⟨?_, ?_, ?_⟩ <;> simp only [parseBinaryBigEndian, h]
    · exact List.prefix_refl _
    · exact List.prefix_refl _
    · show st.elements.map nameCount <+: es.map nameCount
      rw [hmap]

/-- A first and a second input for the repeated-load scenario. -/
def firstLoadBuf : List Nat :=
  strBytes (("ply\nformat ascii 1.0\ncomment A\nelement v 1\nproperty int x\nend_header\n1\n").toList)

def secondLoadBuf : List Nat :=
  strBytes (("ply\nformat ascii 1.0\ncomment B\nelement w 1\nproperty int y\nend_header\n10\n20\n").toList)

/-- C9.  `load` never resets prior state: on any instance and any buffer,
the prior comments, obj_info comments and element signatures survive as
initial segments of the post-load state.  Concretely, loading
`secondLoadBuf` on top of `firstLoadBuf`'s model appends the new comment
and element — and the second body is decoded across *all* elements, so the
first load's element `v` absorbs the first body line of the second file
(`values = [1, 10]`), mixing data from both inputs. -/
theorem c9_second_load_appends :
    (∀ (st : PlyData) (data : List Nat),
      st.header.comments <+: (load st data).2.header.comments ∧
      st.header.objInfoComments <+: (load st data).2.header.objInfoComments ∧
      st.elements.map nameCount <+: (load st data).2.elements.map nameCount) ∧
    (load (load emptyPlyData firstLoadBuf).2 secondLoadBuf).1 = true ∧
    (load (load emptyPlyData firstLoadBuf).2 secondLoadBuf).2.header.comments =
      [("A").toList, ("B").toList] ∧
    (load (load emptyPlyData firstLoadBuf).2 secondLoadBuf).2.elements =
      [{ name := ("v").toList, count := some 1,
         properties := [.typed { name := xKw, type := .int,
                                 values := [.val 1, .val 10] }] },
       { name := ("w").toList, count := some 1,
         properties := [.typed { name := yKw, type := .int,
                                 values := [.val 20] }] }] := by
  refine ⟨?_, by decide, by decide, by decide⟩
  intro st data
  show ExtendsState st (load st data).2
  unfold load
  cases hsplit : splitByEndHeader data with
  | none => exact extendsState_refl st
  | some p =>
    obtain ⟨hb, bb⟩ := p
    simp only []
    cases hhd : parseHeaderFull st (splitLines (bytesToStr hb)) with
    | mk ok st1 =>
      have hext1 : ExtendsState st st1 := by
        have := parseHeaderFull_extendsState st (splitLines (bytesToStr hb))
        rw [hhd] at this
        exact this
      cases ok with
      | false => exact hext1
      | true =>
        by_cases ha : st1.header.type = asciiKw
        · simp only [ha, if_true]
          exact extendsState_trans hext1 (parseAscii_extendsState st1 _)
        · by_cases hl : st1.header.type = binaryLittleEndianKw
          · simp only [ha, hl, if_false, if_true]
            exact extendsState_trans hext1 (parseBinary_extendsState st1 bb)
          · by_cases hbe : st1.header.type = binaryBigEndianKw
            · simp only [ha, hl, hbe, if_false, if_true]
              exact extendsState_trans hext1 (parseBinaryBigEndian_extendsState st1 bb)
            · simp only [ha, hl, hbe, if_false]
              exact hext1

/-! ## C4: the ASCII save/load round trip

The writer's output is re-described line by line and token by token, the
re-load is traced through the marker split, the header parse and the ASCII
body parse, and the accessors are shown to agree with the original model. -/

/-- Join pieces, terminating each with the separator character. -/
def joinSep (sc : Char) (ls : List JSStr) : JSStr :=
  (ls.map (fun l => l ++ [sc])).flatten

theorem joinSep_cons (sc : Char) (l : JSStr) (ls : List JSStr) :
    joinSep sc (l :: ls) = l ++ sc :: joinSep sc ls := by
  simp [joinSep]

theorem joinSep_append (sc : Char) (l1 l2 : List JSStr) :
    joinSep sc (l1 ++ l2) = joinSep sc l1 ++ joinSep sc l2 := by
  simp [joinSep]

theorem splitOnChars_append_sep (sep : Char → Bool) (sc : Char) (hsc : sep sc = true) :
    ∀ (l rest : JSStr), (∀ c ∈ l, sep c = false) →
      splitOnChars sep (l ++ sc :: rest) = l :: splitOnChars sep rest := by
  intro l
  induction l with
  | nil =>
    intro rest _
    simp [splitOnChars, hsc]
  | cons c cs ih =>
    intro rest h
    have hc : sep c = false := h c (by simp)
    rw [List.cons_append, splitOnChars, ih rest (fun d hd => h d (by simp [hd]))]
    simp [hc]

theorem splitOnChars_no_sep (sep : Char → Bool) :
    ∀ l : JSStr, (∀ c ∈ l, sep c = false) → splitOnChars sep l = [l] := by
  intro l
  induction l with
  | nil => intro _; rfl
  | cons c cs ih =>
    intro h
    have hc : sep c = false := h c (by simp)
    rw [splitOnChars, ih (fun d hd => h d (by simp [hd]))]
    simp [hc]

theorem splitOnChars_joinSep (sep : Char → Bool) (sc : Char) (hsc : sep sc = true) :
    ∀ (ls : List JSStr) (t : JSStr), (∀ l ∈ ls, ∀ c ∈ l, sep c = false) →
      splitOnChars sep (joinSep sc ls ++ t) = ls ++ splitOnChars sep t := by
  intro ls
  induction ls with
  | nil => intro t _; rfl
  | cons l ls' ih =>
    intro t h
    rw [joinSep_cons, List.append_assoc, List.cons_append]
    rw [splitOnChars_append_sep sep sc hsc l _ (h l (by simp))]
    rw [ih t (fun l' hl' => h l' (by simp [hl']))]
    rfl

theorem bytesToStr_strBytes (s : JSStr) : bytesToStr (strBytes s) = s := by
  simp only [bytesToStr, strBytes, List.map_map]
  have : (Char.ofNat ∘ Char.toNat) = id := by
    funext c
    exact Char.ofNat_toNat c
  rw [this, List.map_id]

theorem strBytes_append (a b : JSStr) : strBytes (a ++ b) = strBytes a ++ strBytes b := by
  simp [strBytes]

theorem findEndHeaderIdx_of_prefixed {l : List Nat}
    (h : endHeaderBytes.isPrefixOf l = true) : findEndHeaderIdx l = some 0 := by
  cases l with
  | nil => simp [endHeaderBytes, endHeaderNlKw] at h
  | cons b rest => simp [findEndHeaderIdx, h]

theorem findEndHeaderIdx_first (pre : List Nat) :
    ∀ suf : List Nat,
      (∀ i, i < pre.length →
        endHeaderBytes.isPrefixOf ((pre ++ (endHeaderBytes ++ suf)).drop i) = false) →
      findEndHeaderIdx (pre ++ (endHeaderBytes ++ suf)) = some pre.length := by
  induction pre with
  | nil =>
    intro suf _
    exact findEndHeaderIdx_of_prefixed
      (List.isPrefixOf_iff_prefix.mpr (List.prefix_append _ _))
  | cons b pre' ih =>
    intro suf hpre
    have h0 := hpre 0 (by simp)
    rw [List.cons_append, findEndHeaderIdx]
    rw [List.drop_zero] at h0
    rw [List.cons_append] at h0
    simp only [h0, Bool.false_eq_true, if_false]
    rw [ih suf (fun i hi => by
      have := hpre (i + 1) (by simp only [List.length_cons]; omega)
      simpa using this)]
    simp

theorem splitByEndHeader_layout (pre body : List Nat)
    (hpre : ∀ i, i < pre.length →
      endHeaderBytes.isPrefixOf ((pre ++ (endHeaderBytes ++ body)).drop i) = false) :
    splitByEndHeader (pre ++ (endHeaderBytes ++ body)) =
      some (pre ++ endHeaderBytes,
        if body = [] then pre ++ (endHeaderBytes ++ body) else body) := by
  unfold splitByEndHeader
  rw [findEndHeaderIdx_first pre body hpre]
  simp only [Option.map_some']
  have hlen : endHeaderBytes.length = 11 := rfl
  have htake : (pre ++ (endHeaderBytes ++ body)).take (pre.length + endHeaderBytes.length) =
      pre ++ endHeaderBytes := by
    rw [← List.append_assoc, ← List.length_append]
    exact List.take_left _ _
  rw [htake]
  by_cases hb : body = []
  · subst hb
    have harg : ((pre.length + endHeaderBytes.length : Nat) : Int) -
        ((pre ++ (endHeaderBytes ++ ([] : List Nat))).length : Int) = 0 := by
      simp
    rw [jsSliceFrom, harg]
    simp
  · have hlt : ((pre.length + endHeaderBytes.length : Nat) : Int) -
        ((pre ++ (endHeaderBytes ++ body)).length : Int) < 0 := by
      simp only [List.length_append]
      have : 0 < body.length := List.length_pos.mpr hb
      omega
    rw [jsSliceFrom, if_pos hlt]
    have : (((pre ++ (endHeaderBytes ++ body)).length : Int) +
        (((pre.length + endHeaderBytes.length : Nat) : Int) -
          ((pre ++ (endHeaderBytes ++ body)).length : Int))).toNat =
        pre.length + endHeaderBytes.length := by
      simp only [List.length_append]
      omega
    rw [this, if_neg hb]
    have hdrop : (pre ++ (endHeaderBytes ++ body)).drop (pre.length + endHeaderBytes.length) =
        body := by
      rw [← List.append_assoc,
        show pre.length + endHeaderBytes.length = (pre ++ endHeaderBytes).length from
          (List.length_append _ _).symm]
      exact List.drop_left _ _
    rw [hdrop]

theorem nlKw_eq : nlKw = ['\n'] := rfl

theorem spaceKw_eq : spaceKw = [' '] := rfl

/-- The header line of one property, without the newline. -/
def propertyHeaderCore (p : Property) : JSStr :=
  match p with
  | .typed tp => propertySpKw ++ renderTypeStr tp.type ++ spaceKw ++ tp.name
  | .typedList lp => propertyListUcharSpKw ++ renderTypeStr lp.type ++ spaceKw ++ lp.name

/-- The header lines of one element: its `element` line then one line per
property. -/
def elementHeaderLines (e : Element) : List JSStr :=
  (elementSpKw ++ e.name ++ spaceKw ++ renderOptInt e.count) ::
    e.properties.map propertyHeaderCore

/-- All header lines before `end_header`. -/
def headerLinesPre (m : PlyData) : List JSStr :=
  plyKw :: (formatAsciiKw ++ m.header.version) ::
    (m.header.comments.map (fun c => commentSpKw ++ c) ++
      (m.header.objInfoComments.map (fun c => objInfoSpKw ++ c) ++
        (m.elements.map elementHeaderLines).flatten))

theorem propertyHeaderLine_eq (p : Property) :
    propertyHeaderLine p = propertyHeaderCore p ++ nlKw := by
  cases p <;> simp [propertyHeaderLine, propertyHeaderCore, List.append_assoc]

theorem elementHeaderText_eq (e : Element) :
    elementHeaderText e = joinSep '\n' (elementHeaderLines e) := by
  rw [elementHeaderText, elementHeaderLines, joinSep_cons]
  rw [show e.properties.map propertyHeaderLine =
      e.properties.map (fun p => propertyHeaderCore p ++ ['\n']) from by
    apply List.map_congr_left
    intro p _
    rw [propertyHeaderLine_eq, nlKw_eq]]
  rw [joinSep, List.map_map]
  simp [Function.comp_def, nlKw_eq, List.append_assoc]

theorem flatten_map_eq_joinSep (sc : Char) (f : Element → JSStr) (g : Element → List JSStr)
    (hf : ∀ e, f e = joinSep sc (g e)) (l : List Element) :
    (l.map f).flatten = joinSep sc (l.map g).flatten := by
  induction l with
  | nil => rfl
  | cons e rest ih =>
    simp only [List.map_cons, List.flatten_cons, joinSep_append]
    rw [hf e, ih]

theorem writeHeaderText_eq (m : PlyData) :
    writeHeaderText m = joinSep '\n' (headerLinesPre m) ++ endHeaderNlKw := by
  rw [writeHeaderText, headerLinesPre, joinSep_cons, joinSep_cons, joinSep_append,
    joinSep_append]
  rw [show (m.header.comments.map (fun c => commentSpKw ++ c ++ nlKw)).flatten =
      joinSep '\n' (m.header.comments.map (fun c => commentSpKw ++ c)) from by
    rw [joinSep, List.map_map]; simp [Function.comp_def, nlKw_eq, List.append_assoc]]
  rw [show (m.header.objInfoComments.map (fun c => objInfoSpKw ++ c ++ nlKw)).flatten =
      joinSep '\n' (m.header.objInfoComments.map (fun c => objInfoSpKw ++ c)) from by
    rw [joinSep, List.map_map]; simp [Function.comp_def, nlKw_eq, List.append_assoc]]
  rw [flatten_map_eq_joinSep '\n' elementHeaderText elementHeaderLines elementHeaderText_eq]
  rw [show plyLineKw = plyKw ++ ['\n'] from rfl, show nlKw = ['\n'] from rfl]
  simp [List.append_assoc]

/-- The tokens one property contributes to one instance line (each is
followed by one space in the written text). -/
def chunkTokens (p : Property) (i : Nat) : List JSStr :=
  match p with
  | .typed tp =>
    [match tp.values[i]? with
     | some v => renderJSNum v
     | none => undefinedKw]
  | .typedList lp =>
    match strideAt lp.flattenedIndexStart i, strideAt lp.flattenedIndexStart (i + 1) with
    | some a, some b =>
      renderInt (b - a) ::
        (List.range (b - a).toNat).map (fun (k : Nat) => renderDataAt lp.flattenedData (a + (k : Int)))
    | _, _ => [nanKw]

theorem flatten_map_space_cons {α : Type} (f : α → JSStr) (ts : List α) :
    (ts.map (fun t => ' ' :: f t)).flatten ++ [' '] = ' ' :: joinSep ' ' (ts.map f) := by
  induction ts with
  | nil => rfl
  | cons t rest ih =>
    simp only [List.map_cons, List.flatten_cons, joinSep_cons, List.cons_append,
      List.append_assoc, ih]

theorem writePropertyText_eq (p : Property) (i : Nat) :
    writePropertyText p i = joinSep ' ' (chunkTokens p i) := by
  cases p with
  | typed tp =>
    cases tp.values[i]? <;>
      simp [writePropertyText, chunkTokens, joinSep, spaceKw_eq]
  | typedList lp =>
    cases ha : strideAt lp.flattenedIndexStart i with
    | none =>
      cases hb : strideAt lp.flattenedIndexStart (i + 1) <;>
        simp [writePropertyText, chunkTokens, ha, hb, joinSep, spaceKw_eq]
    | some a =>
      cases hb : strideAt lp.flattenedIndexStart (i + 1) with
      | none => simp [writePropertyText, chunkTokens, ha, hb, joinSep, spaceKw_eq]
      | some b =>
        simp only [writePropertyText, chunkTokens, ha, hb, joinSep_cons, spaceKw_eq]
        rw [List.append_assoc, flatten_map_space_cons]

/-- One body line, without the newline. -/
def instanceLineCore (e : Element) (i : Nat) : JSStr :=
  joinSep ' ' ((e.properties.map (fun p => chunkTokens p i)).flatten)

theorem instanceLineText_eq (e : Element) (i : Nat) :
    instanceLineText e i = instanceLineCore e i ++ nlKw := by
  rw [instanceLineText, instanceLineCore]
  congr 1
  rw [show e.properties.map (fun p => writePropertyText p i) =
      e.properties.map (fun p => joinSep ' ' (chunkTokens p i)) from by
    apply List.map_congr_left
    intro p _
    exact writePropertyText_eq p i]
  induction e.properties with
  | nil => rfl
  | cons p rest ih =>
    simp only [List.map_cons, List.flatten_cons, joinSep_append, ih]

/-- The body lines of one element. -/
def elementBodyLines (e : Element) : List JSStr :=
  (List.range (jsLoopCount e.count)).map (instanceLineCore e)

/-- All body lines. -/
def bodyLines (m : PlyData) : List JSStr :=
  (m.elements.map elementBodyLines).flatten

theorem elementBodyText_eq (e : Element) :
    elementBodyText e = joinSep '\n' (elementBodyLines e) := by
  rw [elementBodyText, elementBodyLines, joinSep, List.map_map]
  congr 1
  apply List.map_congr_left
  intro i _
  simp only [Function.comp]
  rw [instanceLineText_eq, nlKw_eq]

theorem saveText_eq (m : PlyData) :
    saveText m =
      joinSep '\n' (headerLinesPre m) ++ (endHeaderNlKw ++ joinSep '\n' (bodyLines m)) := by
  rw [saveText, writeHeaderText_eq, bodyLines,
    flatten_map_eq_joinSep '\n' elementBodyText elementBodyLines elementBodyText_eq]
  simp [List.append_assoc]

/-! ### Well-formedness of a model for an exact ASCII round trip -/

/-- A token that re-tokenizes as itself: no space, tab or newline. -/
def tokenSafe (l : JSStr) : Bool :=
  l.all (fun c => !(c == ' ' || c == '\t' || c == '\n'))

/-- The fresh property the header parser constructs from a declared
property's saved header line, before any body data is decoded. -/
def freshProperty : Property → Property
  | .typed tp => .typed { tp with values := [] }
  | .typedList lp =>
    .typedList
      { lp with listCountBytes := 1, flattenedData := [], flattenedIndexStart := [some 0] }

def freshElement (e : Element) : Element :=
  { e with properties := e.properties.map freshProperty }

/-- The saved list count-width collapses to `uchar` (1); nothing else of a
well-formed model changes across an ASCII round trip. -/
def normalizeProperty : Property → Property
  | .typed tp => .typed tp
  | .typedList lp => .typedList { lp with listCountBytes := 1 }

def normalizeElement (e : Element) : Element :=
  { e with properties := e.properties.map normalizeProperty }

/-- The model that re-loading the saved ASCII text produces. -/
def reloadedModel (m : PlyData) : PlyData :=
  { header := { type := asciiKw, version := versionOneKw,
                comments := m.header.comments,
                objInfoComments := m.header.objInfoComments },
    elements := m.elements.map normalizeElement }

/-- The state right after the reload's header parse. -/
def headerReloaded (m : PlyData) : PlyData :=
  { header := { type := asciiKw, version := versionOneKw,
                comments := m.header.comments,
                objInfoComments := m.header.objInfoComments },
    elements := m.elements.map freshElement }

def scalarOk (tp : TypedProperty) (n : Nat) : Bool :=
  tokenSafe tp.name &&
  (tp.values.length == n) &&
  tp.values.all (fun v =>
    tokenSafe (renderJSNum v) && (parseValue (some (renderJSNum v)) tp.type == v))

def listOk (lp : TypedListProperty) (n : Nat) : Bool :=
  tokenSafe lp.name &&
  (lp.flattenedIndexStart.length == n + 1) &&
  (strideAt lp.flattenedIndexStart 0 == some 0) &&
  (strideAt lp.flattenedIndexStart n == some (lp.flattenedData.length : Int)) &&
  (List.range n).all (fun i =>
    match strideAt lp.flattenedIndexStart i, strideAt lp.flattenedIndexStart (i + 1) with
    | some a, some b =>
      decide (0 ≤ a) && decide (a ≤ b) &&
        tokenSafe (renderInt (b - a)) && (parseIntJS (renderInt (b - a)) == some (b - a))
    | _, _ => false) &&
  lp.flattenedData.all (fun v =>
    tokenSafe (renderJSNum v) && (parseValue (some (renderJSNum v)) lp.type == v))

def propertyOk (p : Property) (n : Nat) : Bool :=
  match p with
  | .typed tp => scalarOk tp n
  | .typedList lp => listOk lp n

def elementOk (e : Element) : Bool :=
  tokenSafe e.name &&
  tokenSafe (renderOptInt e.count) &&
  (parseIntJS (renderOptInt e.count) == e.count) &&
  (!(e.properties.isEmpty) || jsLoopCount e.count == 0) &&
  e.properties.all (fun p => propertyOk p (jsLoopCount e.count))

def noNl (l : JSStr) : Bool := l.all (fun c => !(c == '\n'))

/-- No `"end_header\n"` occurrence in the saved bytes before the real one. -/
def noEarlyMarker (m : PlyData) : Bool :=
  (List.range (strBytes (joinSep '\n' (headerLinesPre m))).length).all
    (fun i => !(endHeaderBytes.isPrefixOf ((strBytes (saveText m)).drop i)))

/-- Decidable well-formedness of a model for the ASCII round trip: version
`1.0`, newline-free saved lines, token-safe names and renderings that parse
back to the value they render, counts consistent with the stored data, and
no early `end_header` marker in the saved bytes. -/
def saveWellFormed (m : PlyData) : Bool :=
  (m.header.version == versionOneKw) &&
  (headerLinesPre m).all noNl &&
  (bodyLines m).all noNl &&
  m.elements.all elementOk &&
  noEarlyMarker m

/-! ### Re-parsing the saved header -/

theorem tokenSafe_sep {t : JSStr} (h : tokenSafe t = true) :
    ∀ c ∈ t, (c == ' ' || c == '\t') = false := by
  intro c hc
  have h1 := List.all_eq_true.mp h c hc
  have h2 : (c == ' ' || c == '\t' || c == '\n') = false := by
    cases hx : (c == ' ' || c == '\t' || c == '\n') with
    | false => rfl
    | true => rw [hx] at h1; simp at h1
  exact (Bool.or_eq_false_iff.mp h2).1

theorem renderTypeStr_sep (τ : PropertyType) :
    ∀ c ∈ renderTypeStr τ, (c == ' ' || c == '\t') = false := by
  cases τ <;> decide

theorem splitTokens_three (w1 w2 t : JSStr)
    (h1 : ∀ c ∈ w1, (c == ' ' || c == '\t') = false)
    (h2 : ∀ c ∈ w2, (c == ' ' || c == '\t') = false)
    (ht : ∀ c ∈ t, (c == ' ' || c == '\t') = false) :
    splitTokens (w1 ++ ' ' :: (w2 ++ ' ' :: t)) = [w1, w2, t] := by
  rw [splitTokens, splitOnChars_append_sep _ ' ' rfl w1 _ h1,
    splitOnChars_append_sep _ ' ' rfl w2 _ h2]
  rw [show splitOnChars (fun c => c == ' ' || c == '\t') t = [t] from
    splitOnChars_no_sep _ t ht]

theorem scalar_line_not_list (τ : PropertyType) (pname : JSStr) :
    listStartsWith (propertyKw ++ ' ' :: (renderTypeStr τ ++ ' ' :: pname))
      propertyListKw = false := by
  cases τ <;> rfl

theorem createProperty_scalar (τ : PropertyType) (pname : JSStr) :
    createPropertyWithType pname (renderTypeStr τ) false [] =
      some (.typed { name := pname, type := τ, values := [] }) := by
  cases τ <;> rfl

theorem createProperty_list (τ : PropertyType) (pname : JSStr) :
    createPropertyWithType pname (renderTypeStr τ) true (("uchar").toList) =
      some (.typedList { name := pname, type := τ, listCountBytes := 1,
                         flattenedData := [], flattenedIndexStart := [some 0] }) := by
  cases τ <;> rfl

theorem element_line_shape (name cnt : JSStr) :
    elementSpKw ++ name ++ spaceKw ++ cnt = elementKw ++ ' ' :: (name ++ ' ' :: cnt) := by
  simp only [List.append_assoc]
  rfl

theorem parseHeaderLines_element_step (st : PlyData) (name cnt : JSStr)
    (rest : List JSStr)
    (hname : tokenSafe name = true) (hcnt : tokenSafe cnt = true) :
    parseHeaderLines st ((elementSpKw ++ name ++ spaceKw ++ cnt) :: rest) =
      parseHeaderLines
        (pushElement st { name := name, count := parseIntJS cnt, properties := [] }) rest := by
  rw [element_line_shape]
  have htok : splitTokens (elementKw ++ ' ' :: (name ++ ' ' :: cnt)) = [elementKw, name, cnt] :=
    splitTokens_three _ _ _ (by decide) (tokenSafe_sep hname) (tokenSafe_sep hcnt)
  rw [parseHeaderLines]
  rw [if_neg (show ¬ (elementKw ++ ' ' :: (name ++ ' ' :: cnt)) = [] by simp [elementKw])]
  rw [if_neg (show ¬ (listStartsWith (elementKw ++ ' ' :: (name ++ ' ' :: cnt)) commentKw =
    true) by rw [show listStartsWith (elementKw ++ ' ' :: (name ++ ' ' :: cnt)) commentKw =
      false from rfl]; simp)]
  rw [if_neg (show ¬ (listStartsWith (elementKw ++ ' ' :: (name ++ ' ' :: cnt)) objInfoKw =
    true) by rw [show listStartsWith (elementKw ++ ' ' :: (name ++ ' ' :: cnt)) objInfoKw =
      false from rfl]; simp)]
  rw [if_pos (show listStartsWith (elementKw ++ ' ' :: (name ++ ' ' :: cnt)) elementKw =
    true from rfl)]
  rw [htok]

theorem parseHeaderLines_scalar_property_step (st : PlyData) (τ : PropertyType)
    (pname : JSStr) (rest : List JSStr)
    (hne : st.elements.isEmpty = false) (hpname : tokenSafe pname = true) :
    parseHeaderLines st ((propertySpKw ++ renderTypeStr τ ++ spaceKw ++ pname) :: rest) =
      parseHeaderLines
        (pushPropertyToLast st (.typed { name := pname, type := τ, values := [] })) rest := by
  have hshape : propertySpKw ++ renderTypeStr τ ++ spaceKw ++ pname =
      propertyKw ++ ' ' :: (renderTypeStr τ ++ ' ' :: pname) := by
    simp only [List.append_assoc]
    rfl
  rw [hshape]
  have htok : splitTokens (propertyKw ++ ' ' :: (renderTypeStr τ ++ ' ' :: pname)) =
      [propertyKw, renderTypeStr τ, pname] :=
    splitTokens_three _ _ _ (by decide) (renderTypeStr_sep τ) (tokenSafe_sep hpname)
  rw [parseHeaderLines]
  rw [if_neg (show ¬ (propertyKw ++ ' ' :: (renderTypeStr τ ++ ' ' :: pname)) = [] by
    simp [propertyKw])]
  rw [if_neg (show ¬ (listStartsWith (propertyKw ++ ' ' :: (renderTypeStr τ ++ ' ' :: pname))
    commentKw = true) by
    rw [show listStartsWith (propertyKw ++ ' ' :: (renderTypeStr τ ++ ' ' :: pname))
      commentKw = false from rfl]; simp)]
  rw [if_neg (show ¬ (listStartsWith (propertyKw ++ ' ' :: (renderTypeStr τ ++ ' ' :: pname))
    objInfoKw = true) by
    rw [show listStartsWith (propertyKw ++ ' ' :: (renderTypeStr τ ++ ' ' :: pname))
      objInfoKw = false from rfl]; simp)]
  rw [if_neg (show ¬ (listStartsWith (propertyKw ++ ' ' :: (renderTypeStr τ ++ ' ' :: pname))
    elementKw = true) by
    rw [show listStartsWith (propertyKw ++ ' ' :: (renderTypeStr τ ++ ' ' :: pname))
      elementKw = false from rfl]; simp)]
  rw [if_neg (show ¬ (listStartsWith (propertyKw ++ ' ' :: (renderTypeStr τ ++ ' ' :: pname))
    propertyListKw = true) by rw [scalar_line_not_list]; simp)]
  rw [if_pos (show listStartsWith (propertyKw ++ ' ' :: (renderTypeStr τ ++ ' ' :: pname))
    propertyKw = true from rfl)]
  rw [htok]
  simp only [hne, Bool.false_eq_true, if_false, createProperty_scalar]

theorem list_line_shape (τ : PropertyType) (pname : JSStr) :
    propertyListUcharSpKw ++ renderTypeStr τ ++ spaceKw ++ pname =
      propertyKw ++ ' ' :: ((("list").toList) ++ ' ' ::
        ((("uchar").toList) ++ ' ' :: (renderTypeStr τ ++ ' ' :: pname))) := by
  simp only [List.append_assoc]
  rfl

theorem splitTokens_five (w1 w2 w3 w4 t : JSStr)
    (h1 : ∀ c ∈ w1, (c == ' ' || c == '\t') = false)
    (h2 : ∀ c ∈ w2, (c == ' ' || c == '\t') = false)
    (h3 : ∀ c ∈ w3, (c == ' ' || c == '\t') = false)
    (h4 : ∀ c ∈ w4, (c == ' ' || c == '\t') = false)
    (ht : ∀ c ∈ t, (c == ' ' || c == '\t') = false) :
    splitTokens (w1 ++ ' ' :: (w2 ++ ' ' :: (w3 ++ ' ' :: (w4 ++ ' ' :: t)))) =
      [w1, w2, w3, w4, t] := by
  rw [splitTokens, splitOnChars_append_sep _ ' ' rfl w1 _ h1,
    splitOnChars_append_sep _ ' ' rfl w2 _ h2,
    splitOnChars_append_sep _ ' ' rfl w3 _ h3,
    splitOnChars_append_sep _ ' ' rfl w4 _ h4]
  rw [show splitOnChars (fun c => c == ' ' || c == '\t') t = [t] from
    splitOnChars_no_sep _ t ht]

theorem parseHeaderLines_list_property_step (st : PlyData) (τ : PropertyType)
    (pname : JSStr) (rest : List JSStr)
    (hne : st.elements.isEmpty = false) (hpname : tokenSafe pname = true) :
    parseHeaderLines st
        ((propertyListUcharSpKw ++ renderTypeStr τ ++ spaceKw ++ pname) :: rest) =
      parseHeaderLines
        (pushPropertyToLast st
          (.typedList { name := pname, type := τ, listCountBytes := 1,
                        flattenedData := [], flattenedIndexStart := [some 0] })) rest := by
  rw [list_line_shape]
  have htok := splitTokens_five propertyKw (("list").toList) (("uchar").toList)
    (renderTypeStr τ) pname (by decide) (by decide) (by decide)
    (renderTypeStr_sep τ) (tokenSafe_sep hpname)
  rw [parseHeaderLines]
  rw [if_neg (show ¬ (propertyKw ++ ' ' :: ((("list").toList) ++ ' ' ::
    ((("uchar").toList) ++ ' ' :: (renderTypeStr τ ++ ' ' :: pname)))) = [] by
    simp [propertyKw])]
  rw [if_neg (show ¬ (listStartsWith (propertyKw ++ ' ' :: ((("list").toList) ++ ' ' ::
    ((("uchar").toList) ++ ' ' :: (renderTypeStr τ ++ ' ' :: pname)))) commentKw = true) by
    rw [show listStartsWith (propertyKw ++ ' ' :: ((("list").toList) ++ ' ' ::
      ((("uchar").toList) ++ ' ' :: (renderTypeStr τ ++ ' ' :: pname)))) commentKw =
      false from rfl]; simp)]
  rw [if_neg (show ¬ (listStartsWith (propertyKw ++ ' ' :: ((("list").toList) ++ ' ' ::
    ((("uchar").toList) ++ ' ' :: (renderTypeStr τ ++ ' ' :: pname)))) objInfoKw = true) by
    rw [show listStartsWith (propertyKw ++ ' ' :: ((("list").toList) ++ ' ' ::
      ((("uchar").toList) ++ ' ' :: (renderTypeStr τ ++ ' ' :: pname)))) objInfoKw =
      false from rfl]; simp)]
  rw [if_neg (show ¬ (listStartsWith (propertyKw ++ ' ' :: ((("list").toList) ++ ' ' ::
    ((("uchar").toList) ++ ' ' :: (renderTypeStr τ ++ ' ' :: pname)))) elementKw = true) by
    rw [show listStartsWith (propertyKw ++ ' ' :: ((("list").toList) ++ ' ' ::
      ((("uchar").toList) ++ ' ' :: (renderTypeStr τ ++ ' ' :: pname)))) elementKw =
      false from rfl]; simp)]
  rw [if_pos (show listStartsWith (propertyKw ++ ' ' :: ((("list").toList) ++ ' ' ::
    ((("uchar").toList) ++ ' ' :: (renderTypeStr τ ++ ' ' :: pname)))) propertyListKw =
    true from rfl)]
  rw [htok]
  simp only [hne, Bool.false_eq_true, if_false, createProperty_list]

theorem parseHeaderLines_comment_step (st : PlyData) (c : JSStr) (rest : List JSStr) :
    parseHeaderLines st ((commentSpKw ++ c) :: rest) =
      parseHeaderLines (pushComment st c) rest := rfl

theorem parseHeaderLines_objinfo_step (st : PlyData) (c : JSStr) (rest : List JSStr) :
    parseHeaderLines st ((objInfoSpKw ++ c) :: rest) =
      parseHeaderLines (pushObjInfo st c) rest := rfl

theorem foldl_pushComment (cs : List JSStr) :
    ∀ st : PlyData, cs.foldl pushComment st =
      { st with header := { st.header with comments := st.header.comments ++ cs } } := by
  induction cs with
  | nil => intro st; simp
  | cons c rest ih =>
    intro st
    rw [List.foldl_cons, ih]
    simp [pushComment]

theorem foldl_pushObjInfo (cs : List JSStr) :
    ∀ st : PlyData, cs.foldl pushObjInfo st =
      { st with header :=
        { st.header with objInfoComments := st.header.objInfoComments ++ cs } } := by
  induction cs with
  | nil => intro st; simp
  | cons c rest ih =>
    intro st
    rw [List.foldl_cons, ih]
    simp [pushObjInfo]

theorem parseHeaderLines_comments_segment (cs : List JSStr) :
    ∀ (st : PlyData) (rest : List JSStr),
      parseHeaderLines st (cs.map (fun c => commentSpKw ++ c) ++ rest) =
        parseHeaderLines (cs.foldl pushComment st) rest := by
  induction cs with
  | nil => intro st rest; rfl
  | cons c cs' ih =>
    intro st rest
    rw [List.map_cons, List.cons_append, parseHeaderLines_comment_step, ih]
    rfl

theorem parseHeaderLines_objinfo_segment (cs : List JSStr) :
    ∀ (st : PlyData) (rest : List JSStr),
      parseHeaderLines st (cs.map (fun c => objInfoSpKw ++ c) ++ rest) =
        parseHeaderLines (cs.foldl pushObjInfo st) rest := by
  induction cs with
  | nil => intro st rest; rfl
  | cons c cs' ih =>
    intro st rest
    rw [List.map_cons, List.cons_append, parseHeaderLines_objinfo_step, ih]
    rfl

theorem pushPropertyToLast_isEmpty (st : PlyData) (p : Property) :
    (pushPropertyToLast st p).elements.isEmpty = st.elements.isEmpty := by
  show (pushToLastElement st.elements p).isEmpty = st.elements.isEmpty
  cases h : st.elements with
  | nil => rfl
  | cons a t => cases t <;> rfl

theorem parseHeaderLines_props_segment (props : List Property) :
    ∀ (st : PlyData) (rest : List JSStr),
      st.elements.isEmpty = false →
      (∀ p ∈ props, tokenSafe (Property.name p) = true) →
      parseHeaderLines st (props.map propertyHeaderCore ++ rest) =
        parseHeaderLines
          (props.foldl (fun s p => pushPropertyToLast s (freshProperty p)) st) rest := by
  induction props with
  | nil => intro st rest _ _; rfl
  | cons p ps ih =>
    intro st rest hne hsafe
    rw [List.map_cons, List.cons_append]
    cases p with
    | typed tp =>
      rw [show propertyHeaderCore (.typed tp) =
        propertySpKw ++ renderTypeStr tp.type ++ spaceKw ++ tp.name from rfl]
      rw [parseHeaderLines_scalar_property_step st tp.type tp.name _ hne
        (hsafe (Property.typed tp) (by simp))]
      rw [ih _ _ (by rw [pushPropertyToLast_isEmpty]; exact hne)
        (fun q hq => hsafe q (by simp [hq]))]
      rfl
    | typedList lp =>
      rw [show propertyHeaderCore (.typedList lp) =
        propertyListUcharSpKw ++ renderTypeStr lp.type ++ spaceKw ++ lp.name from rfl]
      rw [parseHeaderLines_list_property_step st lp.type lp.name _ hne
        (hsafe (Property.typedList lp) (by simp))]
      rw [ih _ _ (by rw [pushPropertyToLast_isEmpty]; exact hne)
        (fun q hq => hsafe q (by simp [hq]))]
      rfl

theorem pushToLastElement_append (es : List Element) (e : Element) (p : Property) :
    pushToLastElement (es ++ [e]) p =
      es ++ [{ e with properties := e.properties ++ [p] }] := by
  induction es with
  | nil => rfl
  | cons a rest ih =>
    cases rest with
    | nil => rfl
    | cons b rest2 =>
      show pushToLastElement (a :: ((b :: rest2) ++ [e])) p = _
      rw [show pushToLastElement (a :: ((b :: rest2) ++ [e])) p =
        a :: pushToLastElement ((b :: rest2) ++ [e]) p from rfl, ih]
      rfl

theorem foldl_push_props (props : List Property) :
    ∀ (st : PlyData) (en : Element),
      props.foldl (fun s p => pushPropertyToLast s (freshProperty p))
        { st with elements := st.elements ++ [en] } =
      { st with elements :=
        st.elements ++ [{ en with properties := en.properties ++ props.map freshProperty }] } := by
  induction props with
  | nil => intro st en; simp
  | cons p ps ih =>
    intro st en
    rw [List.foldl_cons]
    have hstep : pushPropertyToLast { st with elements := st.elements ++ [en] }
        (freshProperty p) =
        { st with elements :=
          st.elements ++ [{ en with properties := en.properties ++ [freshProperty p] }] } := by
      simp only [pushPropertyToLast]
      rw [pushToLastElement_append]
    rw [hstep, ih]
    simp [List.append_assoc]

theorem parseHeaderLines_element_block (e : Element) (st : PlyData) (rest : List JSStr)
    (hname : tokenSafe e.name = true) (hcnt : tokenSafe (renderOptInt e.count) = true)
    (hparse : parseIntJS (renderOptInt e.count) = e.count)
    (hprops : ∀ p ∈ e.properties, tokenSafe (Property.name p) = true) :
    parseHeaderLines st (elementHeaderLines e ++ rest) =
      parseHeaderLines { st with elements := st.elements ++ [freshElement e] } rest := by
  rw [elementHeaderLines, List.cons_append,
    parseHeaderLines_element_step st e.name (renderOptInt e.count) _ hname hcnt, hparse]
  have hpush : pushElement st ⟨e.name, e.count, []⟩ =
      { st with elements := st.elements ++ [⟨e.name, e.count, []⟩] } := rfl
  rw [hpush]
  rw [parseHeaderLines_props_segment e.properties _ rest (by simp) hprops]
  rw [foldl_push_props]
  rfl

theorem parseHeaderLines_elements_segment (es : List Element) :
    ∀ (st : PlyData) (rest : List JSStr),
      (∀ e ∈ es, tokenSafe e.name = true ∧ tokenSafe (renderOptInt e.count) = true ∧
        parseIntJS (renderOptInt e.count) = e.count ∧
        ∀ p ∈ e.properties, tokenSafe (Property.name p) = true) →
      parseHeaderLines st ((es.map elementHeaderLines).flatten ++ rest) =
        parseHeaderLines { st with elements := st.elements ++ es.map freshElement } rest := by
  induction es with
  | nil =>
    intro st rest _
    simp
  | cons e es' ih =>
    intro st rest h
    rw [List.map_cons, List.flatten_cons, List.append_assoc]
    obtain ⟨h1, h2, h3, h4⟩ := h e (by simp)
    rw [parseHeaderLines_element_block e st _ h1 h2 h3 h4]
    rw [ih _ _ (fun e' he' => h e' (by simp [he']))]
    congr 1
    simp [List.append_assoc]

/-- Re-parsing the saved header rebuilds the comments, obj_info comments
and element skeletons (with fresh, empty properties and `uchar` list
counts) on a fresh `PlyData`. -/
theorem reparse_header (m : PlyData)
    (hv : m.header.version = versionOneKw)
    (hels : ∀ e ∈ m.elements, tokenSafe e.name = true ∧
      tokenSafe (renderOptInt e.count) = true ∧
      parseIntJS (renderOptInt e.count) = e.count ∧
      ∀ p ∈ e.properties, tokenSafe (Property.name p) = true) :
    parseHeaderFull emptyPlyData (headerLinesPre m ++ [endHeaderKw, []]) =
      (true, headerReloaded m) := by
  rw [headerLinesPre, hv, List.cons_append, List.cons_append]
  unfold parseHeaderFull
  simp only [List.getElem?_cons_zero, List.getElem?_cons_succ]
  rw [if_neg (show ¬ jsTrim plyKw ≠ plyKw by
    rw [show jsTrim plyKw = plyKw from rfl]; simp)]
  rw [show splitTokens (formatAsciiKw ++ versionOneKw) =
    [formatKw, asciiKw, versionOneKw] from rfl]
  simp only []
  rw [if_neg (show ¬ formatKw ≠ formatKw by simp)]
  rw [setFormat_version]
  rw [if_neg (show ¬ versionOneKw ≠ versionOneKw by simp)]
  simp only [List.drop_succ_cons, List.drop_zero]
  simp only [List.append_assoc]
  rw [parseHeaderLines_comments_segment, parseHeaderLines_objinfo_segment,
    parseHeaderLines_elements_segment _ _ _ hels]
  rw [foldl_pushComment, foldl_pushObjInfo]
  rw [show parseHeaderLines
    { setFormat emptyPlyData asciiKw versionOneKw with
      header := { (setFormat emptyPlyData asciiKw versionOneKw).header with
        comments := (setFormat emptyPlyData asciiKw versionOneKw).header.comments ++
          m.header.comments,
        objInfoComments :=
          (setFormat emptyPlyData asciiKw versionOneKw).header.objInfoComments ++
            m.header.objInfoComments },
      elements := (setFormat emptyPlyData asciiKw versionOneKw).elements ++
        m.elements.map freshElement }
    [endHeaderKw, []] =
    (true,
      { setFormat emptyPlyData asciiKw versionOneKw with
        header := { (setFormat emptyPlyData asciiKw versionOneKw).header with
          comments := (setFormat emptyPlyData asciiKw versionOneKw).header.comments ++
            m.header.comments,
          objInfoComments :=
            (setFormat emptyPlyData asciiKw versionOneKw).header.objInfoComments ++
              m.header.objInfoComments },
        elements := (setFormat emptyPlyData asciiKw versionOneKw).elements ++
          m.elements.map freshElement }) from rfl]
  simp [headerReloaded, setFormat, emptyPlyData]

/-! ### Re-parsing the saved body -/

/-- The start of instance `i`'s slice, as a natural number. -/
def strideN (lp : TypedListProperty) (i : Nat) : Nat :=
  match strideAt lp.flattenedIndexStart i with
  | some a => a.toNat
  | none => 0

/-- The state of a reloaded property after `i` instances have been decoded. -/
def partialProperty (p : Property) (i : Nat) : Property :=
  match p with
  | .typed tp => .typed { tp with values := tp.values.take i }
  | .typedList lp =>
    .typedList { lp with listCountBytes := 1, flattenedData := lp.flattenedData.take (strideN lp i), flattenedIndexStart := lp.flattenedIndexStart.take (i + 1) }

theorem scalarOk_spec {tp : TypedProperty} {n : Nat} (h : scalarOk tp n = true) :
    tp.values.length = n ∧
    ∀ v ∈ tp.values, tokenSafe (renderJSNum v) = true ∧
      parseValue (some (renderJSNum v)) tp.type = v := by
  rw [scalarOk] at h
  simp only [Bool.and_eq_true] at h
  obtain ⟨⟨-, hlen⟩, hvals⟩ := h
  refine ⟨by simpa using hlen, ?_⟩
  intro v hv
  have := List.all_eq_true.mp hvals v hv
  rw [Bool.and_eq_true] at this
  exact ⟨this.1, by simpa using this.2⟩

theorem listOk_spec {lp : TypedListProperty} {n : Nat} (h : listOk lp n = true) :
    lp.flattenedIndexStart.length = n + 1 ∧
    strideAt lp.flattenedIndexStart 0 = some 0 ∧
    strideAt lp.flattenedIndexStart n = some (lp.flattenedData.length : Int) ∧
    (∀ i, i < n → ∃ a b, strideAt lp.flattenedIndexStart i = some a ∧
      strideAt lp.flattenedIndexStart (i + 1) = some b ∧ 0 ≤ a ∧ a ≤ b ∧
      tokenSafe (renderInt (b - a)) = true ∧
      parseIntJS (renderInt (b - a)) = some (b - a)) ∧
    (∀ v ∈ lp.flattenedData, tokenSafe (renderJSNum v) = true ∧
      parseValue (some (renderJSNum v)) lp.type = v) := by
  rw [listOk] at h
  simp only [Bool.and_eq_true] at h
  obtain ⟨⟨⟨⟨⟨-, hlen⟩, h0⟩, hn⟩, hall⟩, hvals⟩ := h
  refine ⟨by simpa using hlen, by simpa using h0, by simpa using hn, ?_, ?_⟩
  · intro i hi
    have := List.all_eq_true.mp hall i (List.mem_range.mpr hi)
    cases ha : strideAt lp.flattenedIndexStart i with
    | none => rw [ha] at this; simp at this
    | some a =>
      cases hb : strideAt lp.flattenedIndexStart (i + 1) with
      | none => rw [ha, hb] at this; simp at this
      | some b =>
        rw [ha, hb] at this
        simp only [Bool.and_eq_true, decide_eq_true_eq, beq_iff_eq] at this
        exact ⟨a, b, rfl, rfl, this.1.1.1, this.1.1.2, this.1.2, this.2⟩
  · intro v hv
    have := List.all_eq_true.mp hvals v hv
    rw [Bool.and_eq_true] at this
    exact ⟨this.1, by simpa using this.2⟩

theorem elementOk_spec {e : Element} (h : elementOk e = true) :
    tokenSafe e.name = true ∧ tokenSafe (renderOptInt e.count) = true ∧
    parseIntJS (renderOptInt e.count) = e.count ∧
    (e.properties.isEmpty = false ∨ jsLoopCount e.count = 0) ∧
    ∀ p ∈ e.properties, propertyOk p (jsLoopCount e.count) = true := by
  rw [elementOk] at h
  simp only [Bool.and_eq_true] at h
  obtain ⟨⟨⟨⟨hn, hc⟩, hcp⟩, hne⟩, hprops⟩ := h
  refine ⟨hn, hc, by simpa using hcp, ?_, fun p hp => List.all_eq_true.mp hprops p hp⟩
  rcases Bool.or_eq_true _ _ |>.mp hne with h1 | h2
  · exact Or.inl (by simpa using h1)
  · exact Or.inr (by simpa using h2)

theorem propertyOk_name {p : Property} {n : Nat} (h : propertyOk p n = true) :
    tokenSafe (Property.name p) = true := by
  cases p with
  | typed tp =>
    rw [propertyOk, scalarOk] at h
    simp only [Bool.and_eq_true] at h
    exact h.1.1
  | typedList lp =>
    rw [propertyOk, listOk] at h
    simp only [Bool.and_eq_true] at h
    exact h.1.1.1.1.1

theorem stride_bounds {lp : TypedListProperty} {n : Nat} (h : listOk lp n = true) :
    ∀ j i, i + j = n → ∃ a, strideAt lp.flattenedIndexStart i = some a ∧ 0 ≤ a ∧
      a ≤ (lp.flattenedData.length : Int) := by
  obtain ⟨-, -, hlast, hstep, -⟩ := listOk_spec h
  intro j
  induction j with
  | zero =>
    intro i hi
    rw [Nat.add_zero] at hi
    subst hi
    exact ⟨_, hlast, by positivity, le_refl _⟩
  | succ k ih =>
    intro i hi
    obtain ⟨a, b, ha, hb, ha0, hab, -, -⟩ := hstep i (by omega)
    obtain ⟨b', hb', -, hb'le⟩ := ih (i + 1) (by omega)
    rw [hb] at hb'
    cases hb'
    exact ⟨a, ha, ha0, le_trans hab hb'le⟩

theorem strideAt_entry {l : List (Option Int)} {i : Nat} {a : Int}
    (h : strideAt l i = some a) : l[i]? = some (some a) := by
  rw [strideAt] at h
  cases hx : l[i]? with
  | none => rw [hx] at h; exact Option.noConfusion h
  | some o =>
    rw [hx] at h
    have ho : o = some a := by simpa using h
    rw [ho]

theorem partialProperty_zero {p : Property} {n : Nat} (hok : propertyOk p n = true) :
    partialProperty p 0 = freshProperty p := by
  cases p with
  | typed tp => rfl
  | typedList lp =>
    obtain ⟨-, h0, -, -, -⟩ := listOk_spec (show listOk lp n = true from hok)
    have he := strideAt_entry h0
    have hsn : strideN lp 0 = 0 := by
      rw [strideN, h0]
      rfl
    have ht : lp.flattenedIndexStart.take 1 = [some 0] := by
      rw [show (1 : Nat) = 0 + 1 from rfl, List.take_succ, he]
      rfl
    rw [partialProperty, freshProperty, hsn, ht]
    rfl

theorem partialProperty_full {p : Property} {n : Nat} (hok : propertyOk p n = true) :
    partialProperty p n = normalizeProperty p := by
  cases p with
  | typed tp =>
    obtain ⟨hlen, -⟩ := scalarOk_spec (show scalarOk tp n = true from hok)
    rw [partialProperty, normalizeProperty, ← hlen, List.take_length]
  | typedList lp =>
    obtain ⟨hlen, -, hn, -, -⟩ := listOk_spec (show listOk lp n = true from hok)
    have hsn : strideN lp n = lp.flattenedData.length := by
      rw [strideN, hn]
      exact Int.toNat_natCast _
    rw [partialProperty, normalizeProperty, hsn, List.take_length, ← hlen, List.take_length]

theorem fresh_eq_normalize_of_zero {p : Property} (hok : propertyOk p 0 = true) :
    freshProperty p = normalizeProperty p :=
  (partialProperty_zero hok).symm.trans (partialProperty_full hok)

theorem chunkTokens_list {lp : TypedListProperty} {n : Nat} (hok : listOk lp n = true)
    {i : Nat} (hi : i < n) :
    ∃ a b, strideAt lp.flattenedIndexStart i = some a ∧
      strideAt lp.flattenedIndexStart (i + 1) = some b ∧
      0 ≤ a ∧ a ≤ b ∧ b.toNat ≤ lp.flattenedData.length ∧
      tokenSafe (renderInt (b - a)) = true ∧
      parseIntJS (renderInt (b - a)) = some (b - a) ∧
      chunkTokens (.typedList lp) i =
        renderInt (b - a) :: (List.range (b - a).toNat).map
          (fun (k : Nat) => renderDataAt lp.flattenedData (a + (k : Int))) := by
  obtain ⟨a, b, ha, hb, ha0, hab, hts, hpr⟩ := (listOk_spec hok).2.2.2.1 i hi
  obtain ⟨b', hb', hb'0, hble⟩ := stride_bounds hok (n - (i + 1)) (i + 1) (by omega)
  rw [hb] at hb'
  injection hb' with hbb
  subst hbb
  have hbn : b.toNat ≤ lp.flattenedData.length := by omega
  refine ⟨a, b, ha, hb, ha0, hab, hbn, hts, hpr, ?_⟩
  rw [chunkTokens, ha, hb]

theorem renderDataAt_mem {data : List JSNum} {a : Int} (k : Nat) (ha : 0 ≤ a)
    (hlt : a.toNat + k < data.length) :
    ∃ w, data[a.toNat + k]? = some w ∧ w ∈ data ∧
      renderDataAt data (a + (k : Int)) = renderJSNum w := by
  obtain ⟨w, hw⟩ : ∃ w, data[a.toNat + k]? = some w := ⟨_, List.getElem?_eq_getElem hlt⟩
  have hnn : ¬ (a + (k : Int) < 0) := by omega
  have htn : (a + (k : Int)).toNat = a.toNat + k := by omega
  refine ⟨w, hw, List.getElem?_mem hw, ?_⟩
  rw [renderDataAt, if_neg hnn, htn, hw]

/-- One `parseNext` call on the partially rebuilt property consumes exactly
this instance's saved tokens and extends the partial property by one
instance. -/
theorem parseNext_partial {p : Property} {n : Nat} (hok : propertyOk p n = true)
    {i : Nat} (hi : i < n) (tokens : List JSStr) (iTok : Nat)
    (htok : ∀ k, k < (chunkTokens p i).length →
      tokens[iTok + k]? = (chunkTokens p i)[k]?) :
    Property.parseNext (partialProperty p i) tokens iTok =
      (partialProperty p (i + 1), iTok + (chunkTokens p i).length) := by
  cases p with
  | typed tp =>
    obtain ⟨hlen, hvals⟩ := scalarOk_spec (show scalarOk tp n = true from hok)
    have hilt : i < tp.values.length := by omega
    obtain ⟨v, hv⟩ : ∃ v, tp.values[i]? = some v := ⟨_, List.getElem?_eq_getElem hilt⟩
    have hvmem : v ∈ tp.values := List.getElem?_mem hv
    have hchunk : chunkTokens (.typed tp) i = [renderJSNum v] := by
      rw [chunkTokens, hv]
    have ht0 : tokens[iTok]? = some (renderJSNum v) := by
      have h1 := htok 0 (by rw [hchunk]; simp)
      rw [hchunk] at h1
      simpa using h1
    rw [hchunk]
    simp only [partialProperty, Property.parseNext, TypedProperty.parseNext, ht0,
      (hvals v hvmem).2, List.length_cons, List.length_nil]
    rw [List.take_succ, hv]
    rfl
  | typedList lp =>
    have hok' : listOk lp n = true := hok
    obtain ⟨a, b, ha, hb, ha0, hab, hbn, hts, hpr, hchunk⟩ := chunkTokens_list hok' hi
    have han : a.toNat ≤ lp.flattenedData.length := by omega
    have hsni : strideN lp i = a.toNat := by rw [strideN, ha]
    have hsni1 : strideN lp (i + 1) = b.toNat := by rw [strideN, hb]
    have hclen : (chunkTokens (.typedList lp) i).length = (b - a).toNat + 1 := by
      rw [hchunk]
      simp [List.length_map, List.length_range]
    have ht0 : tokens[iTok]? = some (renderInt (b - a)) := by
      have h1 := htok 0 (by omega)
      rw [hchunk] at h1
      simpa using h1
    have hdtok : ∀ k, k < (b - a).toNat →
        tokens[iTok + 1 + k]? = some (renderDataAt lp.flattenedData (a + (k : Int))) := by
      intro k hk
      have h1 := htok (k + 1) (by omega)
      rw [hchunk, show iTok + (k + 1) = iTok + 1 + k from by omega] at h1
      rw [h1, List.getElem?_cons_succ, List.getElem?_map, List.getElem?_range hk]
      rfl
    have hseg : (List.range (b - a).toNat).map
        (fun k => parseValue tokens[iTok + 1 + k]? lp.type) =
        (lp.flattenedData.drop a.toNat).take (b - a).toNat := by
      apply List.ext_getElem?
      intro idx
      by_cases hidx : idx < (b - a).toNat
      · have hlt : a.toNat + idx < lp.flattenedData.length := by omega
        obtain ⟨w, hw, hwmem, hrd⟩ := renderDataAt_mem idx ha0 hlt
        rw [List.getElem?_map, List.getElem?_range hidx, List.getElem?_take, if_pos hidx,
          List.getElem?_drop, hw, Option.map_some']
        rw [hdtok idx hidx, hrd, ((listOk_spec hok').2.2.2.2 w hwmem).2]
      · rw [List.getElem?_map,
          List.getElem?_eq_none (by simpa [List.length_range] using hidx),
          List.getElem?_take, if_neg hidx]
        rfl
    have hfis : lp.flattenedIndexStart.take (i + 1 + 1) =
        lp.flattenedIndexStart.take (i + 1) ++ [some b] := by
      rw [List.take_succ, strideAt_entry hb]
      rfl
    have hplen : ((lp.flattenedData.take a.toNat).length : Int) + (b - a) = b := by
      rw [List.length_take]
      omega
    rw [hclen]
    simp only [partialProperty, Property.parseNext, TypedListProperty.parseNext, ht0, hsni,
      hsni1, parseIntTok, Option.some_bind, hpr, Option.map_some', jsLoopCount]
    rw [hseg, ← List.take_add, show a.toNat + (b - a).toNat = b.toNat from by omega,
      hplen, ← hfis]
    rw [show iTok + 1 + (b - a).toNat = iTok + ((b - a).toNat + 1) from by omega]

theorem chunkTokens_safe {p : Property} {n : Nat} (hok : propertyOk p n = true)
    {i : Nat} (hi : i < n) : ∀ tok ∈ chunkTokens p i, tokenSafe tok = true := by
  cases p with
  | typed tp =>
    obtain ⟨hlen, hvals⟩ := scalarOk_spec (show scalarOk tp n = true from hok)
    have hilt : i < tp.values.length := by omega
    obtain ⟨v, hv⟩ : ∃ v, tp.values[i]? = some v := ⟨_, List.getElem?_eq_getElem hilt⟩
    intro tok htok
    rw [chunkTokens, hv] at htok
    rcases List.mem_singleton.mp htok with rfl
    exact (hvals v (List.getElem?_mem hv)).1
  | typedList lp =>
    have hok' : listOk lp n = true := hok
    obtain ⟨a, b, ha, hb, ha0, hab, hbn, hts, hpr, hchunk⟩ := chunkTokens_list hok' hi
    intro tok htok
    rw [hchunk] at htok
    rcases List.mem_cons.mp htok with rfl | hmem
    · exact hts
    · obtain ⟨k, hk, rfl⟩ := List.mem_map.mp hmem
      have hkr : k < (b - a).toNat := List.mem_range.mp hk
      have hlt : a.toNat + k < lp.flattenedData.length := by omega
      obtain ⟨w, -, hwmem, hrd⟩ := renderDataAt_mem k ha0 hlt
      rw [hrd]
      exact ((listOk_spec hok').2.2.2.2 w hwmem).1

/-- Feeding a saved instance line's tokens through the partially rebuilt
property list advances every property by one instance and consumes exactly
the line's tokens. -/
theorem parseInstanceTokens_chunks {n : Nat} (props : List Property)
    (hok : ∀ p ∈ props, propertyOk p n = true) {i : Nat} (hi : i < n)
    (tokens : List JSStr) (iTok : Nat)
    (htok : ∀ k, k < ((props.map (fun p => chunkTokens p i)).flatten).length →
      tokens[iTok + k]? = ((props.map (fun p => chunkTokens p i)).flatten)[k]?) :
    parseInstanceTokens (props.map (fun p => partialProperty p i)) tokens iTok =
      (props.map (fun p => partialProperty p (i + 1)),
        iTok + ((props.map (fun p => chunkTokens p i)).flatten).length) := by
  induction props generalizing iTok with
  | nil => simp [parseInstanceTokens]
  | cons p rest ih =>
    have hp : propertyOk p n = true := hok p (List.mem_cons_self p rest)
    have hflat : (((p :: rest).map (fun q => chunkTokens q i)).flatten : List JSStr) =
        chunkTokens p i ++ (rest.map (fun q => chunkTokens q i)).flatten := by
      simp
    have hlenle : (chunkTokens p i).length ≤
        (((p :: rest).map (fun q => chunkTokens q i)).flatten).length := by
      rw [hflat, List.length_append]
      omega
    have hstep := parseNext_partial hp hi tokens iTok (fun k hk => by
      rw [htok k (by omega), hflat, List.getElem?_append, if_pos hk])
    have htok' : ∀ k, k < ((rest.map (fun q => chunkTokens q i)).flatten).length →
        tokens[iTok + (chunkTokens p i).length + k]? =
          ((rest.map (fun q => chunkTokens q i)).flatten)[k]? := by
      intro k hk
      have h1 := htok ((chunkTokens p i).length + k) (by
        rw [hflat, List.length_append]
        omega)
      rw [hflat, List.getElem?_append_right (by omega),
        show (chunkTokens p i).length + k - (chunkTokens p i).length = k from by omega,
        show iTok + ((chunkTokens p i).length + k) =
          iTok + (chunkTokens p i).length + k from by omega] at h1
      exact h1
    have hrest := ih (fun q hq => hok q (List.mem_cons_of_mem p hq))
      (iTok + (chunkTokens p i).length) htok'
    simp only [List.map_cons, parseInstanceTokens]
    rw [hstep, hrest, List.flatten_cons, List.length_append]
    rw [show iTok + (chunkTokens p i).length +
        ((rest.map (fun q => chunkTokens q i)).flatten).length =
        iTok + ((chunkTokens p i).length +
          ((rest.map (fun q => chunkTokens q i)).flatten).length) from by omega]

theorem splitTokens_chunks {props : List Property} {n : Nat}
    (hok : ∀ p ∈ props, propertyOk p n = true) {i : Nat} (hi : i < n) :
    splitTokens (joinSep ' ' ((props.map (fun p => chunkTokens p i)).flatten)) =
      ((props.map (fun p => chunkTokens p i)).flatten) ++ [[]] := by
  have hsafe : ∀ l ∈ (props.map (fun p => chunkTokens p i)).flatten, ∀ c ∈ l,
      (c == ' ' || c == '\t') = false := by
    intro tok hmem c hc
    obtain ⟨cl, hcl, htokin⟩ := List.mem_flatten.mp hmem
    obtain ⟨p, hp, rfl⟩ := List.mem_map.mp hcl
    exact tokenSafe_sep (chunkTokens_safe (hok p hp) hi tok htokin) c hc
  rw [splitTokens,
    ← List.append_nil (joinSep ' ' ((props.map (fun p => chunkTokens p i)).flatten)),
    splitOnChars_joinSep (fun c => c == ' ' || c == '\t') ' ' (by decide) _ [] hsafe]
  rfl

theorem parseAsciiInstances_succ (lines : List JSStr) (k : Nat) (props : List Property)
    (lc : Nat) :
    parseAsciiInstances lines (k + 1) props lc =
      match nextContentLine lines lc props.isEmpty with
      | none => (props, lc, false)
      | some (line, lc') =>
        parseAsciiInstances lines k (parseInstanceTokens props (splitTokens line) 0).1 lc' :=
  rfl

/-- The saved instance lines of one element rebuild all its properties, one
instance per line, ending exactly `count` lines later. -/
theorem parseAsciiInstances_chunks {props : List Property} {n : Nat}
    (hok : ∀ p ∈ props, propertyOk p n = true) (hne : props ≠ [])
    (lines : List JSStr) (lc : Nat)
    (hline : ∀ j, j < n → lines[lc + j]? =
      some (joinSep ' ' ((props.map (fun p => chunkTokens p j)).flatten))) :
    ∀ r i, i + r = n →
      parseAsciiInstances lines r (props.map (fun p => partialProperty p i)) (lc + i) =
        (props.map (fun p => partialProperty p n), lc + n, true) := by
  intro r
  induction r with
  | zero =>
    intro i h
    obtain rfl : i = n := by omega
    rfl
  | succ k ih =>
    intro i h
    have hi : i < n := by omega
    have hpe : (props.map (fun p => partialProperty p i)).isEmpty = false := by
      cases props with
      | nil => cases hne rfl
      | cons q qs => rfl
    have hnext : nextContentLine lines (lc + i)
        ((props.map (fun p => partialProperty p i)).isEmpty) =
        some (joinSep ' ' ((props.map (fun p => chunkTokens p i)).flatten), lc + i + 1) := by
      rw [nextContentLine, hline i hi, hpe]
      rfl
    have htoks : ∀ j, j < ((props.map (fun p => chunkTokens p i)).flatten).length →
        ((props.map (fun p => chunkTokens p i)).flatten ++ [[]])[0 + j]? =
          ((props.map (fun p => chunkTokens p i)).flatten)[j]? := by
      intro j hj
      rw [show 0 + j = j from by omega, List.getElem?_append, if_pos hj]
    have hpit := parseInstanceTokens_chunks props hok hi
      ((props.map (fun p => chunkTokens p i)).flatten ++ [[]]) 0 htoks
    rw [parseAsciiInstances_succ, hnext]
    simp only [splitTokens_chunks hok hi, hpit]
    rw [show lc + i + 1 = lc + (i + 1) from by omega]
    exact ih (i + 1) (by omega)

theorem parseAsciiElems_cons (lines : List JSStr) (e : Element) (rest : List Element)
    (lc : Nat) :
    parseAsciiElems lines (e :: rest) lc =
      (match parseAsciiInstances lines (jsLoopCount e.count) e.properties lc with
       | (props', _, false) => ({ e with properties := props' } :: rest, false)
       | (props', lc', true) =>
         let r := parseAsciiElems lines rest lc'
         ({ e with properties := props' } :: r.1, r.2)) :=
  rfl

/-- Walking the saved body lines through the freshly redeclared elements
rebuilds every element's data, up to the collapsed list-count width. -/
theorem parseAsciiElems_chunks (lines : List JSStr) :
    ∀ (els : List Element) (lc : Nat) (tl : List JSStr),
      (∀ e ∈ els, elementOk e = true) →
      lines.drop lc = (els.map elementBodyLines).flatten ++ tl →
      parseAsciiElems lines (els.map freshElement) lc = (els.map normalizeElement, true) := by
  intro els
  induction els with
  | nil =>
    intro lc tl _ _
    rfl
  | cons e rest ih =>
    intro lc tl hok htail
    obtain ⟨-, -, -, hne0, hprops⟩ := elementOk_spec (hok e (List.mem_cons_self e rest))
    have hflat : ((e :: rest).map elementBodyLines).flatten =
        elementBodyLines e ++ (rest.map elementBodyLines).flatten := by
      simp
    have hebl : (elementBodyLines e).length = jsLoopCount e.count := by
      rw [elementBodyLines, List.length_map, List.length_range]
    have htail' : lines.drop (lc + jsLoopCount e.count) =
        (rest.map elementBodyLines).flatten ++ tl := by
      rw [← List.drop_drop, htail, hflat, List.append_assoc, ← hebl, List.drop_left]
    by_cases hz : jsLoopCount e.count = 0
    · have hfn : e.properties.map freshProperty = e.properties.map normalizeProperty := by
        apply List.map_congr_left
        intro p hp
        have hp0 : propertyOk p 0 = true := by
          rw [← hz]
          exact hprops p hp
        exact fresh_eq_normalize_of_zero hp0
      have htail0 : lines.drop lc = (rest.map elementBodyLines).flatten ++ tl := by
        have heble : elementBodyLines e = [] := by
          rw [elementBodyLines, hz]
          rfl
        rw [htail, hflat, heble, List.nil_append]
      have hr := ih lc tl (fun x hx => hok x (List.mem_cons_of_mem e hx)) htail0
      rw [List.map_cons, parseAsciiElems_cons,
        show jsLoopCount (freshElement e).count = jsLoopCount e.count from rfl, hz]
      simp only [parseAsciiInstances, hr]
      rw [show (freshElement e).properties = e.properties.map freshProperty from rfl, hfn]
      rfl
    · have hnne : e.properties ≠ [] := by
        rcases hne0 with h1 | h2
        · intro hnil
          rw [hnil] at h1
          simp at h1
        · exact absurd h2 hz
      have hlinesj : ∀ j, j < jsLoopCount e.count → lines[lc + j]? =
          some (joinSep ' ' ((e.properties.map (fun p => chunkTokens p j)).flatten)) := by
        intro j hj
        have h1 : lines[lc + j]? = (lines.drop lc)[j]? := (List.getElem?_drop lines lc j).symm
        rw [h1, htail, hflat, List.append_assoc, List.getElem?_append,
          if_pos (by rw [hebl]; exact hj), elementBodyLines, List.getElem?_map,
          List.getElem?_range hj]
        rfl
      have hinst := parseAsciiInstances_chunks hprops hnne lines lc hlinesj
        (jsLoopCount e.count) 0 (by omega)
      simp only [Nat.add_zero] at hinst
      have hr := ih (lc + jsLoopCount e.count) tl
        (fun x hx => hok x (List.mem_cons_of_mem e hx)) htail'
      rw [List.map_cons, parseAsciiElems_cons,
        show jsLoopCount (freshElement e).count = jsLoopCount e.count from rfl,
        show (freshElement e).properties =
          e.properties.map (fun p => partialProperty p 0) from
          List.map_congr_left (fun p hp => (partialProperty_zero (hprops p hp)).symm),
        hinst]
      simp only [hr]
      rw [show e.properties.map (fun p => partialProperty p (jsLoopCount e.count)) =
        e.properties.map normalizeProperty from
        List.map_congr_left (fun p hp => partialProperty_full (hprops p hp))]
      rfl

/-- When every element declares zero instances, the body loop decodes
nothing and succeeds whatever lines it is given — this covers the
`slice(0)` quirk, where an empty body hands the whole buffer back. -/
theorem parseAsciiElems_zero (lines : List JSStr) :
    ∀ (els : List Element) (lc : Nat),
      (∀ e ∈ els, elementOk e = true) →
      (∀ e ∈ els, jsLoopCount e.count = 0) →
      parseAsciiElems lines (els.map freshElement) lc = (els.map normalizeElement, true) := by
  intro els
  induction els with
  | nil =>
    intro lc _ _
    rfl
  | cons e rest ih =>
    intro lc hok hz
    obtain ⟨-, -, -, -, hprops⟩ := elementOk_spec (hok e (List.mem_cons_self e rest))
    have hz0 := hz e (List.mem_cons_self e rest)
    have hfn : e.properties.map freshProperty = e.properties.map normalizeProperty := by
      apply List.map_congr_left
      intro p hp
      have hp0 : propertyOk p 0 = true := by
        rw [← hz0]
        exact hprops p hp
      exact fresh_eq_normalize_of_zero hp0
    have hr := ih lc (fun x hx => hok x (List.mem_cons_of_mem e hx))
      (fun x hx => hz x (List.mem_cons_of_mem e hx))
    rw [List.map_cons, parseAsciiElems_cons,
      show jsLoopCount (freshElement e).count = jsLoopCount e.count from rfl, hz0]
    simp only [parseAsciiInstances, hr]
    rw [show (freshElement e).properties = e.properties.map freshProperty from rfl, hfn]
    rfl

/-- Re-parsing the saved body lines from the reloaded header state rebuilds
the model, with list-count widths collapsed to `uchar`. -/
theorem parseAscii_reload (m : PlyData) (hok : ∀ e ∈ m.elements, elementOk e = true) :
    parseAscii (headerReloaded m) (bodyLines m ++ [[]]) = (true, reloadedModel m) := by
  have h := parseAsciiElems_chunks (bodyLines m ++ [[]]) m.elements 0 [[]] hok
    (by rw [List.drop_zero, bodyLines])
  rw [parseAscii, show (headerReloaded m).elements = m.elements.map freshElement from rfl, h]
  rfl

/-- The quirk branch: with every element count zero, re-parsing succeeds on
any line list and still yields the reloaded model. -/
theorem parseAscii_reload_zero (m : PlyData) (hok : ∀ e ∈ m.elements, elementOk e = true)
    (hz : ∀ e ∈ m.elements, jsLoopCount e.count = 0) (lines : List JSStr) :
    parseAscii (headerReloaded m) lines = (true, reloadedModel m) := by
  have h := parseAsciiElems_zero lines m.elements 0 hok hz
  rw [parseAscii, show (headerReloaded m).elements = m.elements.map freshElement from rfl, h]
  rfl

theorem joinSep_eq_nil {sc : Char} {ls : List JSStr} (h : joinSep sc ls = []) : ls = [] := by
  cases ls with
  | nil => rfl
  | cons l rest =>
    rw [joinSep_cons] at h
    rcases List.append_eq_nil.mp h with ⟨-, h2⟩
    exact List.noConfusion h2

/-- Loading the bytes `save` writes reproduces the model, with list-count
widths collapsed to `uchar`: the heart of the ASCII round trip. -/
theorem load_saveText (m : PlyData) (hwf : saveWellFormed m = true) :
    load emptyPlyData (strBytes (saveText m)) = (true, reloadedModel m) := by
  rw [saveWellFormed] at hwf
  simp only [Bool.and_eq_true] at hwf
  obtain ⟨⟨⟨⟨hv, hhnl⟩, hbnl⟩, hels⟩, hnem⟩ := hwf
  have hv' : m.header.version = versionOneKw := by simpa using hv
  have hels' : ∀ e ∈ m.elements, elementOk e = true := List.all_eq_true.mp hels
  have hels2 : ∀ e ∈ m.elements, tokenSafe e.name = true ∧
      tokenSafe (renderOptInt e.count) = true ∧
      parseIntJS (renderOptInt e.count) = e.count ∧
      ∀ p ∈ e.properties, tokenSafe (Property.name p) = true := by
    intro e he
    obtain ⟨h1, h2, h3, -, h5⟩ := elementOk_spec (hels' e he)
    exact ⟨h1, h2, h3, fun p hp => propertyOk_name (h5 p hp)⟩
  have hbytes : strBytes (saveText m) =
      strBytes (joinSep '\n' (headerLinesPre m)) ++
        (endHeaderBytes ++ strBytes (joinSep '\n' (bodyLines m))) := by
    rw [saveText_eq, strBytes_append, strBytes_append]
    rfl
  have hpre : ∀ i, i < (strBytes (joinSep '\n' (headerLinesPre m))).length →
      endHeaderBytes.isPrefixOf
        ((strBytes (joinSep '\n' (headerLinesPre m)) ++
          (endHeaderBytes ++ strBytes (joinSep '\n' (bodyLines m)))).drop i) = false := by
    intro i hi
    have h1 := List.all_eq_true.mp hnem i (List.mem_range.mpr hi)
    rw [← hbytes]
    cases hx : endHeaderBytes.isPrefixOf ((strBytes (saveText m)).drop i) with
    | false => rfl
    | true =>
      rw [hx] at h1
      exact absurd h1 (by decide)
  have hsplit := splitByEndHeader_layout _ _ hpre
  have hsafeH : ∀ l ∈ headerLinesPre m ++ [endHeaderKw], ∀ c ∈ l, (c == '\n') = false := by
    intro l hl c hc
    rcases List.mem_append.mp hl with h1 | h2
    · have h3 := List.all_eq_true.mp (List.all_eq_true.mp hhnl l h1) c hc
      cases hx : (c == '\n') with
      | false => rfl
      | true =>
        rw [hx] at h3
        exact absurd h3 (by decide)
    · rcases List.mem_singleton.mp h2 with rfl
      exact (by decide : ∀ c ∈ endHeaderKw, (c == '\n') = false) c hc
  have hhb : splitLines
      (bytesToStr (strBytes (joinSep '\n' (headerLinesPre m)) ++ endHeaderBytes)) =
      headerLinesPre m ++ [endHeaderKw, []] := by
    rw [show (endHeaderBytes : List Nat) = strBytes endHeaderNlKw from rfl,
      ← strBytes_append, bytesToStr_strBytes,
      show (endHeaderNlKw : JSStr) = joinSep '\n' [endHeaderKw] from by decide,
      ← joinSep_append, splitLines,
      ← List.append_nil (joinSep '\n' (headerLinesPre m ++ [endHeaderKw])),
      splitOnChars_joinSep (fun c => c == '\n') '\n' (by decide) _ [] hsafeH,
      List.append_assoc]
    rfl
  have hhdr := reparse_header m hv' hels2
  unfold load
  rw [hbytes]
  simp only [hsplit]
  by_cases hbody : strBytes (joinSep '\n' (bodyLines m)) = []
  · rw [if_pos hbody]
    have hbl0 : bodyLines m = [] := by
      apply joinSep_eq_nil
      cases hj : joinSep '\n' (bodyLines m) with
      | nil => rfl
      | cons c rest =>
        rw [hj] at hbody
        exact absurd hbody (by simp [strBytes])
    have hz : ∀ e ∈ m.elements, jsLoopCount e.count = 0 := by
      intro e he
      have h1 : elementBodyLines e = [] := by
        apply List.flatten_eq_nil_iff.mp (show (m.elements.map elementBodyLines).flatten = []
          from hbl0)
        exact List.mem_map_of_mem elementBodyLines he
      rw [elementBodyLines] at h1
      have h2 : List.range (jsLoopCount e.count) = [] := by
        cases hr : List.range (jsLoopCount e.count) with
        | nil => rfl
        | cons x xs =>
          rw [hr] at h1
          exact absurd h1 (by simp)
      simpa using congrArg List.length h2
    simp only [hhb, hhdr]
    rw [if_pos (show (headerReloaded m).header.type = asciiKw from rfl)]
    exact parseAscii_reload_zero m hels' hz _
  · rw [if_neg hbody]
    have hsafeB : ∀ l ∈ bodyLines m, ∀ c ∈ l, (c == '\n') = false := by
      intro l hl c hc
      have h3 := List.all_eq_true.mp (List.all_eq_true.mp hbnl l hl) c hc
      cases hx : (c == '\n') with
      | false => rfl
      | true =>
        rw [hx] at h3
        exact absurd h3 (by decide)
    have hbl : splitLines (bytesToStr (strBytes (joinSep '\n' (bodyLines m)))) =
        bodyLines m ++ [[]] := by
      rw [bytesToStr_strBytes, splitLines, ← List.append_nil (joinSep '\n' (bodyLines m)),
        splitOnChars_joinSep (fun c => c == '\n') '\n' (by decide) _ [] hsafeB]
      rfl
    simp only [hhb, hhdr]
    rw [if_pos (show (headerReloaded m).header.type = asciiKw from rfl), hbl]
    exact parseAscii_reload m hels'

/-! ### The reloaded model answers the accessors identically -/

theorem find?_map_of_name {α : Type} (f : α → α) (p : α → Bool)
    (hp : ∀ a, p (f a) = p a) (l : List α) :
    (l.map f).find? p = (l.find? p).map f := by
  induction l with
  | nil => rfl
  | cons a t ih =>
    rw [List.map_cons, List.find?_cons, List.find?_cons, hp a]
    cases p a with
    | true => rfl
    | false => exact ih

theorem findElement_reloaded (m : PlyData) (n : JSStr) :
    findElement (reloadedModel m) n = (findElement m n).map normalizeElement := by
  rw [findElement, findElement,
    show (reloadedModel m).elements = m.elements.map normalizeElement from rfl]
  exact find?_map_of_name normalizeElement (fun e => e.name == n) (fun e => rfl) m.elements

theorem findProperty_normalized (e : Element) (n : JSStr) :
    (normalizeElement e).findProperty n = (e.findProperty n).map normalizeProperty := by
  rw [Element.findProperty, Element.findProperty,
    show (normalizeElement e).properties = e.properties.map normalizeProperty from rfl]
  apply find?_map_of_name
  intro p
  cases p <;> rfl

theorem getVertexValues_reloaded (m : PlyData) (en n1 n2 n3 : JSStr) :
    getVertexValues (reloadedModel m) en n1 n2 n3 = getVertexValues m en n1 n2 n3 := by
  have h3 : ∀ p, getValuesOf (normalizeProperty p) = getValuesOf p := by
    intro p
    cases p <;> rfl
  rw [getVertexValues, getVertexValues, findElement_reloaded]
  cases hfe : findElement m en with
  | none => rfl
  | some e =>
    simp only [Option.map_some', Option.some_bind, findProperty_normalized]
    cases hp1 : e.findProperty n1 <;> cases hp2 : e.findProperty n2 <;>
      cases hp3 : e.findProperty n3 <;> simp [h3]

theorem getFaces_reloaded (m : PlyData) : getFaces (reloadedModel m) = getFaces m := by
  have h4 : ∀ o : Option Property, getIndicesOf (o.map normalizeProperty) = getIndicesOf o := by
    intro o
    cases o with
    | none => rfl
    | some p => cases p <;> rfl
  rw [getFaces, getFaces, findElement_reloaded]
  cases hfe : findElement m faceKw with
  | none => rfl
  | some e =>
    simp only [Option.map_some', Option.some_bind, findProperty_normalized, h4]

/-! ## C4: the ASCII save/load round trip -/

/-- An ASCII file with float vertex positions and one list-property face,
used to witness the round trip. -/
def roundTripBuf : List Nat :=
  strBytes (("ply\nformat ascii 1.0\ncomment c1\nelement vertex 2\nproperty float x\nproperty float y\nproperty float z\nelement face 1\nproperty list uchar int vertex_indices\nend_header\n-0.5 0.5 1\n0.25 2 3\n3 0 1 1\n").toList)

/-- C4.  Loading an ASCII PLY file, saving the resulting model, and loading
the written bytes again succeeds and yields a model whose
`getVertexPositions` and `getFaces` answers are identical to the original
load's.  `saveWellFormed` is the decidable well-formedness of the loaded
model that "well-formed ASCII PLY input" guarantees: version `1.0`,
newline-free saved lines, token-safe names, value renderings that parse
back to themselves, and counts consistent with the stored data. -/
theorem c4_ascii_round_trip (data : List Nat) (m : PlyData)
    (hload : load emptyPlyData data = (true, m))
    (hwf : saveWellFormed m = true) :
    ∃ m₂, load emptyPlyData (strBytes (saveText m)) = (true, m₂) ∧
      getVertexPositions m₂ = getVertexPositions m ∧
      getFaces m₂ = getFaces m :=
  ⟨reloadedModel m, load_saveText m hwf,
    getVertexValues_reloaded m vertexKw xKw yKw zKw, getFaces_reloaded m⟩

/-- Witness for `c4_ascii_round_trip`: the concrete two-vertex one-face
ASCII file loads, its model is well formed, and the theorem yields the
round-trip equalities for it. -/
theorem c4_ascii_round_trip_witness :
    ∃ m₂, load emptyPlyData
        (strBytes (saveText (load emptyPlyData roundTripBuf).2)) = (true, m₂) ∧
      getVertexPositions m₂ = getVertexPositions (load emptyPlyData roundTripBuf).2 ∧
      getFaces m₂ = getFaces (load emptyPlyData roundTripBuf).2 :=
  c4_ascii_round_trip roundTripBuf (load emptyPlyData roundTripBuf).2
    (by decide) (by decide)

end PlyVerify
